import Mathlib

/-!
# SpiFlashRK: command protocol and paged I/O engine

A shallow embedding of `src/SpiFlashRK.cpp` (class `SpiFlash`).  Every member
function becomes a function on an explicit `World`: the state of the attached
chip, the micro-controller's RAM, the number of `millis()` calls made so far and
a log of everything the driver did on the bus.  The collaborators (SPI transport,
chip-select pin, millisecond clock) are the fields of `Env`.

`size_t` and `unsigned long` are 32 bits wide on the target; arithmetic on them
is written with an explicit reduction modulo `wordSize`.  `uint8_t` is `Fin 256`.

Loops carry a fuel argument.  The paging loops of `readData` and `writeData` are
given `bufLen` iterations, which always suffice; the polling loop of
`waitForWriteComplete` ends when the chip reports idle or the clock shows the
timeout elapsed, so statements about operations that poll assume `PollReturns`,
which holds for every chip once the clock advances (`pollReturns_of_clock`).
-/

namespace SpiFlashRK

/-! ## Machine integers -/

/-- A `uint8_t`. -/
abbrev Byte := Fin 256

/-- The cast `(uint8_t) n`. -/
def toU8 (n : Nat) : Byte := ⟨n % 256, Nat.mod_lt _ (by decide)⟩

/-- Number of values of a `size_t` / `unsigned long` (32 bits). -/
def wordSize : Nat := 4294967296

/-- Unsigned 32-bit addition. -/
def addU (a b : Nat) : Nat := (a + b) % wordSize

/-- Unsigned 32-bit subtraction. -/
def subU (a b : Nat) : Nat := (a + (wordSize - b % wordSize)) % wordSize

/-! ## Collaborators and state -/

/-- Everything the driver does to the outside world, in program order. -/
inductive Event where
  | setBitOrder (order : Nat)
  | setClockSpeed (value : Nat)
  | setDataMode (mode : Nat)
  | delayMicroseconds (us : Nat)
  | delay (ms : Nat)
  | pinResetFast (pin : Nat)
  | pinSetFast (pin : Nat)
  | transfer (tx : List (Option Byte)) (rx : Option (List Byte))
  | millis (value : Nat)
  deriving DecidableEq, Repr

/-- The collaborators of the driver.  `select` / `deselect` are what the chip sees
when chip-select is driven low / high, `exchange` clocks one byte in each direction
(`none` on the transmit side is a byte the driver does not specify: a NULL transmit
buffer or an uninitialised buffer slot), and `clock k` is the value of the
millisecond counter at the `k`-th call of `millis()`. -/
structure Env (δ : Type) where
  select : δ → δ
  deselect : δ → δ
  exchange : δ → Option Byte → δ × Byte
  clock : Nat → Nat

/-- State threaded through every member function. -/
structure World (δ : Type) where
  dev : δ
  ram : Nat → Byte
  ticks : Nat
  log : List Event

/-- The data members of `SpiFlash` (declared in `SpiFlashRK.h`, set by the caller). -/
structure SpiFlash where
  cs : Nat
  sharedBus : Bool
  sharedBusDelay : Nat
  spiBitOrder : Nat
  spiClockSpeedMHz : Nat
  manufacturerId : Nat
  addressMode4B : Bool
  pageSize : Nat
  waitWriteCompletionTimeoutMs : Nat
  pageProgramTimeoutMs : Nat
  sectorEraseTimeoutMs : Nat
  chipEraseTimeoutMs : Nat
  writeEnableDelayUs : Nat

/-- Modelled from the spec: the constant `STATUS_WIP` of `SpiFlashRK.h`,
"Status bit 0 (write-in-progress, WIP)". -/
def STATUS_WIP : Nat := 0x01

/-- Modelled from the spec: the default argument of `waitForWriteComplete` in its
declaration in `SpiFlashRK.h` ("timeout defaults to a configurable baseline when zero is
passed"); it is what the calls `waitForWriteComplete()` pass. -/
def defaultTimeout : Nat := 0

/-- The Arduino constant `SPI_MODE3`. -/
def SPI_MODE3 : Nat := 3

/-- The Particle constant `MHZ`. -/
def MHZ : Nat := 1000000

/-- Append one event to the log. -/
def emit {δ : Type} (e : Event) (w : World δ) : World δ :=
  { w with log := w.log ++ [e] }

/-- Clock a list of bytes through the chip, collecting what it answers. -/
def exchangeAll {δ : Type} (env : Env δ) : δ → List (Option Byte) → δ × List Byte
  | d, [] => (d, [])
  | d, b :: bs =>
    let r := env.exchange d b
    let rs := exchangeAll env r.1 bs
    (rs.1, r.2 :: rs.2)

/-- The bytes a transfer of `length` bytes puts on MOSI: the first `length` slots of
the transmit buffer, or unspecified bytes for a NULL buffer. -/
def txBytes (tx : Option (List (Option Byte))) (length : Nat) : List (Option Byte) :=
  match tx with
  | none => List.replicate length none
  | some b => b.take length

/-- The call `spi.transfer(tx_buffer, rx_buffer, length, NULL)`: a blocking duplex transfer.
Returns the received bytes; the caller stores them when `rx_buffer` is not NULL. -/
def spiTransfer {δ : Type} (env : Env δ) (tx : Option (List (Option Byte))) (wantRx : Bool)
    (length : Nat) (w : World δ) : World δ × List Byte :=
  let r := exchangeAll env w.dev (txBytes tx length)
  ({ w with dev := r.1,
            log := w.log ++ [Event.transfer (txBytes tx length) (if wantRx then some r.2 else none)] },
   r.2)

/-- The call `millis()`: the next reading of the 32-bit millisecond counter. -/
def millis {δ : Type} (env : Env δ) (w : World δ) : World δ × Nat :=
  let t := env.clock w.ticks % wordSize
  ({ w with ticks := w.ticks + 1, log := w.log ++ [Event.millis t] }, t)

/-- The bytes `ram[p], ..., ram[p + n - 1]`. -/
def ramBytes (ram : Nat → Byte) (p n : Nat) : List Byte :=
  (List.range n).map (fun i => ram (p + i))

/-- RAM after the bytes `rx` have been stored at `p, p + 1, ...`. -/
def storeBytes (ram : Nat → Byte) (p : Nat) (rx : List Byte) : Nat → Byte :=
  fun a => if p ≤ a ∧ a < p + rx.length then rx.getD (a - p) 0 else ram a

/-! ## Bus transaction layer -/

/-- Source lines 52-56, `SpiFlash::setSpiSettings`. -/
def setSpiSettings {δ : Type} (self : SpiFlash) (w : World δ) : World δ :=
  emit (Event.setDataMode SPI_MODE3)
    (emit (Event.setClockSpeed (self.spiClockSpeedMHz * MHZ))
      (emit (Event.setBitOrder self.spiBitOrder) w))

/-- Source lines 33-46, `SpiFlash::beginTransaction`. -/
def beginTransaction {δ : Type} (env : Env δ) (self : SpiFlash) (w : World δ) : World δ :=
  let w1 :=
    if self.sharedBus then
      let w0 := setSpiSettings self w
      if self.sharedBusDelay ≠ 0 then emit (Event.delayMicroseconds self.sharedBusDelay) w0 else w0
    else w
  { w1 with dev := env.select w1.dev, log := w1.log ++ [Event.pinResetFast self.cs] }

/-- Source lines 48-50, `SpiFlash::endTransaction`. -/
def endTransaction {δ : Type} (env : Env δ) (self : SpiFlash) (w : World δ) : World δ :=
  { w with dev := env.deselect w.dev, log := w.log ++ [Event.pinSetFast self.cs] }

/-! ## Flash command protocol layer -/

/-- Source lines 59-69, `SpiFlash::jedecIdRead`.  Only `txBuf[0]` is initialised. -/
def jedecIdRead {δ : Type} (env : Env δ) (self : SpiFlash) (w : World δ) : World δ × Nat :=
  let txBuf : List (Option Byte) := [some 0x9f, none, none, none]
  let w1 := beginTransaction env self w
  let r := spiTransfer env (some txBuf) true 4 w1
  let rxBuf := r.2
  let w2 := endTransaction env self r.1
  (w2, ((rxBuf.getD 1 0).val <<< 16) ||| ((rxBuf.getD 2 0).val <<< 8) ||| (rxBuf.getD 3 0).val)

/-- Source lines 26-30, `SpiFlash::isValid`. -/
def isValid {δ : Type} (env : Env δ) (self : SpiFlash) (w : World δ) : World δ × Bool :=
  let r := jedecIdRead env self w
  let foundManufacturerId : Byte := toU8 ((r.2 >>> 16) &&& 0xff)
  (r.1, decide (self.manufacturerId = foundManufacturerId.val))

/-- Source lines 71-81, `SpiFlash::readStatus`. -/
def readStatus {δ : Type} (env : Env δ) (self : SpiFlash) (w : World δ) : World δ × Byte :=
  let txBuf : List (Option Byte) := [some 0x05, some 0]
  let w1 := beginTransaction env self w
  let r := spiTransfer env (some txBuf) true 2 w1
  let rxBuf := r.2
  let w2 := endTransaction env self r.1
  (w2, rxBuf.getD 1 0)

/-- Source lines 95-97, `SpiFlash::isWriteInProgress`. -/
def isWriteInProgress {δ : Type} (env : Env δ) (self : SpiFlash) (w : World δ) : World δ × Bool :=
  let r := readStatus env self w
  (r.1, (r.2.val &&& STATUS_WIP) != 0)

/-- The `while` loop of `waitForWriteComplete`; `fuel` bounds the number of times the
loop condition is evaluated, `none` means the bound was hit. -/
def waitLoop {δ : Type} (env : Env δ) (self : SpiFlash) (startTime timeout : Nat) :
    Nat → World δ → Option (World δ)
  | 0, _ => none
  | fuel + 1, w =>
    let r := isWriteInProgress env self w
    if r.2 then
      let m := millis env r.1
      if subU m.2 startTime < timeout then
        let w1 := if timeout > 500 then emit (Event.delay 1) m.1 else m.1
        waitLoop env self startTime timeout fuel w1
      else some m.1
    else some r.1

/-- The timeout `waitForWriteComplete` works with after its `if (timeout == 0)`. -/
def effectiveTimeout (self : SpiFlash) (timeout : Nat) : Nat :=
  if timeout = 0 then self.waitWriteCompletionTimeoutMs else timeout

/-- Source lines 99-115, `SpiFlash::waitForWriteComplete`. -/
def waitForWriteComplete {δ : Type} (env : Env δ) (self : SpiFlash) (fuel : Nat)
    (timeout : Nat) (w : World δ) : Option (World δ) :=
  let m := millis env w
  let startTime := m.2
  let timeout := if timeout = 0 then self.waitWriteCompletionTimeoutMs else timeout
  waitLoop env self startTime timeout fuel m.1

/-- Source lines 158-171, `SpiFlash::setInstWithAddr`: fills the first four or five slots
of `buf`. -/
def setInstWithAddr (self : SpiFlash) (inst : Byte) (addr : Nat)
    (buf : List (Option Byte)) : List (Option Byte) :=
  let buf := buf.set 0 (some inst)
  if self.addressMode4B then
    let buf := buf.set 1 (some (toU8 (addr >>> 24)))
    let buf := buf.set 2 (some (toU8 (addr >>> 16)))
    let buf := buf.set 3 (some (toU8 (addr >>> 8)))
    buf.set 4 (some (toU8 addr))
  else
    let buf := buf.set 1 (some (toU8 (addr >>> 16)))
    let buf := buf.set 2 (some (toU8 (addr >>> 8)))
    buf.set 3 (some (toU8 addr))

/-- Source lines 316-328, `SpiFlash::writeEnable`. -/
def writeEnable {δ : Type} (env : Env δ) (self : SpiFlash) (w : World δ) : World δ :=
  let w1 := beginTransaction env self w
  let txBuf : List (Option Byte) := [some 0x06]
  let w2 := (spiTransfer env (some txBuf) false 1 w1).1
  let w3 := endTransaction env self w2
  if self.writeEnableDelayUs > 0 then emit (Event.delayMicroseconds self.writeEnableDelayUs) w3
  else w3

/-! ## Paged I/O engine -/

/-- An uninitialised `uint8_t txBuf[5]`. -/
def txBuf5 : List (Option Byte) := List.replicate 5 none

/-- The `while(bufLen > 0)` loop of `readData`.  `fuel` bounds the iterations; a zero
`pageSize` makes `addr % pageSize` undefined, reported as `none`. -/
def readLoop {δ : Type} (env : Env δ) (self : SpiFlash) :
    Nat → Nat → Nat → Nat → World δ → Option (World δ)
  | 0, _, _, bufLen, w => if bufLen > 0 then none else some w
  | fuel + 1, addr, curBuf, bufLen, w =>
    if bufLen > 0 then
      if self.pageSize = 0 then none
      else
        let pageOffset := addr % self.pageSize
        let pageStart := addr - pageOffset
        let count := subU (addU pageStart self.pageSize) addr
        let count := if count > bufLen then bufLen else count
        let txBuf := setInstWithAddr self (if self.addressMode4B then 0x13 else 0x03) addr txBuf5
        let w1 := beginTransaction env self w
        let w2 := (spiTransfer env (some txBuf) false (if self.addressMode4B then 5 else 4) w1).1
        let r := spiTransfer env none true bufLen w2
        let w3 := { r.1 with ram := storeBytes r.1.ram curBuf r.2 }
        let w4 := endTransaction env self w3
        readLoop env self fuel (addU addr count) (curBuf + count) (subU bufLen count) w4
    else some w

/-- Source lines 130-155, `SpiFlash::readData`.  `buf` is the address of the destination in RAM.  Every
iteration consumes at least one byte, so `bufLen` iterations are always enough. -/
def readData {δ : Type} (env : Env δ) (self : SpiFlash) (addr buf bufLen : Nat)
    (w : World δ) : Option (World δ) :=
  readLoop env self bufLen addr buf bufLen w

/-- The `while(bufLen > 0)` loop of `writeData`. -/
def writeLoop {δ : Type} (env : Env δ) (self : SpiFlash) (pollFuel : Nat) :
    Nat → Nat → Nat → Nat → World δ → Option (World δ)
  | 0, _, _, bufLen, w => if bufLen > 0 then none else some w
  | fuel + 1, addr, curBuf, bufLen, w =>
    if bufLen > 0 then
      if self.pageSize = 0 then none
      else
        let pageOffset := addr % self.pageSize
        let pageStart := addr - pageOffset
        let count := subU (addU pageStart self.pageSize) addr
        let count := if count > bufLen then bufLen else count
        let txBuf := setInstWithAddr self (if self.addressMode4B then 0x12 else 0x02) addr txBuf5
        let w1 := writeEnable env self w
        let w2 := beginTransaction env self w1
        let w3 := (spiTransfer env (some txBuf) false (if self.addressMode4B then 5 else 4) w2).1
        let w4 := (spiTransfer env (some ((ramBytes w3.ram curBuf count).map some)) false count w3).1
        let w5 := endTransaction env self w4
        match waitForWriteComplete env self pollFuel self.pageProgramTimeoutMs w5 with
        | none => none
        | some w6 =>
          writeLoop env self pollFuel fuel (addU addr count) (curBuf + count) (subU bufLen count) w6
    else some w

/-- Source lines 174-208, `SpiFlash::writeData`.  `buf` is the address of the source bytes in RAM. -/
def writeData {δ : Type} (env : Env δ) (self : SpiFlash) (pollFuel : Nat)
    (addr buf bufLen : Nat) (w : World δ) : Option (World δ) :=
  match waitForWriteComplete env self pollFuel defaultTimeout w with
  | none => none
  | some w0 => writeLoop env self pollFuel bufLen addr buf bufLen w0

/-! ## Erase operations -/

/-- Source lines 211-231, `SpiFlash::sectorErase`. -/
def sectorErase {δ : Type} (env : Env δ) (self : SpiFlash) (pollFuel : Nat) (addr : Nat)
    (w : World δ) : Option (World δ) :=
  match waitForWriteComplete env self pollFuel defaultTimeout w with
  | none => none
  | some w0 =>
    let txBuf := setInstWithAddr self (if self.addressMode4B then 0x21 else 0x20) addr txBuf5
    let w1 := writeEnable env self w0
    let w2 := beginTransaction env self w1
    let w3 := (spiTransfer env (some txBuf) false (if self.addressMode4B then 5 else 4) w2).1
    let w4 := endTransaction env self w3
    waitForWriteComplete env self pollFuel self.sectorEraseTimeoutMs w4

/-- Source lines 233-248, `SpiFlash::blockErase`. -/
def blockErase {δ : Type} (env : Env δ) (self : SpiFlash) (pollFuel : Nat) (addr : Nat)
    (w : World δ) : Option (World δ) :=
  match waitForWriteComplete env self pollFuel defaultTimeout w with
  | none => none
  | some w0 =>
    let txBuf := setInstWithAddr self (if self.addressMode4B then 0xDC else 0xD8) addr txBuf5
    let w1 := writeEnable env self w0
    let w2 := beginTransaction env self w1
    let w3 := (spiTransfer env (some txBuf) false (if self.addressMode4B then 5 else 4) w2).1
    let w4 := endTransaction env self w3
    waitForWriteComplete env self pollFuel self.chipEraseTimeoutMs w4

/-- The events of `beginTransaction`. -/
def beginEvents (self : SpiFlash) : List Event :=
  (if self.sharedBus then
      [Event.setBitOrder self.spiBitOrder, Event.setClockSpeed (self.spiClockSpeedMHz * MHZ),
        Event.setDataMode SPI_MODE3]
        ++ (if self.sharedBusDelay ≠ 0 then [Event.delayMicroseconds self.sharedBusDelay] else [])
    else [])
    ++ [Event.pinResetFast self.cs]

/-- One transaction: chip-select low, the given transfers, chip-select high. -/
def txnEvents (self : SpiFlash) (xfers : List Event) : List Event :=
  beginEvents self ++ xfers ++ [Event.pinSetFast self.cs]

/-- A read-status transaction that received `rx`. -/
def statusEvents (self : SpiFlash) (rx : List Byte) : List Event :=
  txnEvents self [Event.transfer [some 0x05, some 0] (some rx)]

/-- A write-enable transaction and its optional settle delay. -/
def wrenEvents (self : SpiFlash) : List Event :=
  txnEvents self [Event.transfer [some 0x06] none]
    ++ (if self.writeEnableDelayUs > 0 then [Event.delayMicroseconds self.writeEnableDelayUs] else [])

/-! ## Polling traces -/

/-- The write-in-progress bit of the status byte carried by a read-status response. -/
def wipOf (rx : List Byte) : Bool := ((rx.getD 1 0).val &&& STATUS_WIP) != 0

/-- What the chip answers to a read-status transaction started in state `d`. -/
def statusResponse {δ : Type} (env : Env δ) (d : δ) : List Byte :=
  (exchangeAll env (env.select d) [some 0x05, some 0]).2

/-- The events of the polling loop of `waitForWriteComplete` that started at clock
reading `startTime` and runs with the (effective) timeout `timeout`. -/
inductive PollTrace (self : SpiFlash) (timeout startTime : Nat) : List Event → Prop where
  | idle (rx : List Byte) (h : wipOf rx = false) :
      PollTrace self timeout startTime (statusEvents self rx)
  | expired (rx : List Byte) (now : Nat) (h : wipOf rx = true)
      (ht : ¬ subU now startTime < timeout) :
      PollTrace self timeout startTime (statusEvents self rx ++ [Event.millis now])
  | again (rx : List Byte) (now : Nat) (rest : List Event) (h : wipOf rx = true)
      (ht : subU now startTime < timeout) (hrest : PollTrace self timeout startTime rest) :
      PollTrace self timeout startTime
        (statusEvents self rx ++ [Event.millis now]
          ++ (if timeout > 500 then [Event.delay 1] else []) ++ rest)

/-- The events of one call `waitForWriteComplete(timeout)`. -/
def IsPoll (self : SpiFlash) (timeout : Nat) (es : List Event) : Prop :=
  ∃ startTime rest, es = Event.millis startTime :: rest
    ∧ PollTrace self (effectiveTimeout self timeout) startTime rest

/-- Whether an event is the transfer of a read-status transaction. -/
def isStatusRead : Event → Bool
  | Event.transfer tx (some _) => tx == [some 0x05, some 0]
  | _ => false

/-- Whether an event is the cooperative `delay(1)` of the polling loop body. -/
def isYield : Event → Bool
  | Event.delay _ => true
  | _ => false

/-! ## Chunks of the paging loop and their traces -/

/-- The `(addr, count)` pair of every iteration of the paging loop shared by
`readData` and `writeData` (the computation of `pageOffset`, `pageStart` and `count`,
and the updates of `addr` and `bufLen`). -/
def pageChunks (pageSize : Nat) : Nat → Nat → Nat → List (Nat × Nat)
  | 0, _, _ => []
  | fuel + 1, addr, bufLen =>
    if bufLen > 0 then
      let pageOffset := addr % pageSize
      let pageStart := addr - pageOffset
      let count := subU (addU pageStart pageSize) addr
      let count := if count > bufLen then bufLen else count
      (addr, count) :: pageChunks pageSize fuel (addU addr count) (subU bufLen count)
    else []

/-- The header every addressed command hands to its first `spi.transfer`: the first
four (3-byte mode) or five (4-byte mode) slots of the buffer `setInstWithAddr` filled. -/
def addrFrame (self : SpiFlash) (inst : Byte) (addr : Nat) : List (Option Byte) :=
  txBytes (some (setInstWithAddr self inst addr txBuf5)) (if self.addressMode4B then 5 else 4)

/-- The page-program transaction of one chunk. -/
def programEvents (self : SpiFlash) (ram : Nat → Byte) (addr cur count : Nat) : List Event :=
  txnEvents self
    [Event.transfer (addrFrame self (if self.addressMode4B then 0x12 else 0x02) addr) none,
     Event.transfer ((ramBytes ram cur count).map some) none]

/-- The events of the loop of `writeData` working through the given chunks with the
source cursor at `cur`: per chunk a write-enable, the page-program of exactly that
chunk, and a completion poll with the page-program timeout. -/
inductive WriteTrace (self : SpiFlash) (ram : Nat → Byte) :
    Nat → List (Nat × Nat) → List Event → Prop where
  | done (cur : Nat) : WriteTrace self ram cur [] []
  | chunk (cur addr count : Nat) (cs : List (Nat × Nat)) (poll rest : List Event)
      (hp : IsPoll self self.pageProgramTimeoutMs poll)
      (hrest : WriteTrace self ram (cur + count) cs rest) :
      WriteTrace self ram cur ((addr, count) :: cs)
        (wrenEvents self ++ programEvents self ram addr cur count ++ poll ++ rest)

/-- Every call `waitForWriteComplete(timeout)` returns within `fuel` evaluations of
its loop condition. -/
def PollReturns {δ : Type} (env : Env δ) (self : SpiFlash) (fuel timeout : Nat) : Prop :=
  ∀ w : World δ, ∃ w', waitForWriteComplete env self fuel timeout w = some w'

/-! ## The algorithm and its chunks as the design states them -/

/-- The paged I/O algorithm as the design describes it, on unbounded naturals: while
bytes remain, take the distance to the end of the current page, capped at what
remains. -/
def splitPages (pageSize : Nat) : Nat → Nat → Nat → List (Nat × Nat)
  | 0, _, _ => []
  | fuel + 1, addr, length =>
    if length > 0 then
      let chunkLength := min (pageSize - addr % pageSize) length
      (addr, chunkLength) :: splitPages pageSize fuel (addr + chunkLength) (length - chunkLength)
    else []

/-- The length the design gives the first chunk: the distance from `addr` to the end
of its page, capped at the length of the request. -/
def firstChunk (pageSize addr length : Nat) : Nat := min (pageSize - addr % pageSize) length

/-- The chunks the design promises for a request of `length` bytes at `addr`: a first
chunk up to the end of the page containing `addr`, one full page for every intermediate
page, and a final chunk with what remains. -/
def expectedChunks (pageSize addr length : Nat) : List (Nat × Nat) :=
  if length = 0 then []
  else
    let first := firstChunk pageSize addr length
    let rest := length - first
    if rest = 0 then [(addr, first)]
    else
      let q := (rest - 1) / pageSize
      (addr, first) ::
        ((List.range q).map (fun i => (addr + first + i * pageSize, pageSize))
          ++ [(addr + first + q * pageSize, rest - q * pageSize)])

/-! ## What the chip sees: MOSI frames -/

/-- The bytes sent while chip-select is low, one list per chip-select window.  The
first argument is the window under construction, if chip-select is currently low. -/
def mosiFrames : Option (List (Option Byte)) → List Event → List (List (Option Byte))
  | _, [] => []
  | cur, e :: es =>
    match e, cur with
    | Event.pinResetFast _, _ => mosiFrames (some []) es
    | Event.transfer tx _, some acc => mosiFrames (some (acc ++ tx)) es
    | Event.pinSetFast _, some acc => acc :: mosiFrames none es
    | _, _ => mosiFrames cur es

/-- The page-program instruction of the addressing mode. -/
def pageProgramInst (self : SpiFlash) : Byte := if self.addressMode4B then 0x12 else 0x02

/-- The read instruction of the addressing mode. -/
def readInst (self : SpiFlash) : Byte := if self.addressMode4B then 0x13 else 0x03

/-- Whether a frame starts with the instruction byte `inst`. -/
def startsWith (inst : Byte) (frame : List (Option Byte)) : Bool :=
  frame.head? == some (some inst)

/-- The page-program frames among the frames of an event list, in order. -/
def programFrames (self : SpiFlash) (es : List Event) : List (List (Option Byte)) :=
  (mosiFrames none es).filter (startsWith (pageProgramInst self))

/-- The page-program frames of a list of chunks, the source cursor starting at `cur`:
header, then exactly the chunk's bytes. -/
def chunkFrames (self : SpiFlash) (ram : Nat → Byte) :
    Nat → List (Nat × Nat) → List (List (Option Byte))
  | _, [] => []
  | cur, (addr, count) :: cs =>
    (addrFrame self (pageProgramInst self) addr ++ (ramBytes ram cur count).map some)
      :: chunkFrames self ram (cur + count) cs

/-- The erase transaction of `sectorErase` / `blockErase`: the addressed header only. -/
def eraseEvents (self : SpiFlash) (inst : Byte) (addr : Nat) : List Event :=
  txnEvents self [Event.transfer (addrFrame self inst addr) none]

/-- The events of the loop of `readData` over the given chunks with `remaining` bytes
still to read: per chunk one read transaction, whose receive transfer clocks in
`remaining` bytes. -/
inductive ReadTrace (self : SpiFlash) : Nat → List (Nat × Nat) → List Event → Prop where
  | done (remaining : Nat) : ReadTrace self remaining [] []
  | chunk (remaining addr count : Nat) (cs : List (Nat × Nat)) (rx : List Byte)
      (rest : List Event) (hrx : rx.length = remaining)
      (hrest : ReadTrace self (remaining - count) cs rest) :
      ReadTrace self remaining ((addr, count) :: cs)
        (txnEvents self
          [Event.transfer (addrFrame self (if self.addressMode4B then 0x13 else 0x03) addr) none,
           Event.transfer (List.replicate remaining none) (some rx)] ++ rest)

/-! ## A simulated flash chip -/

/-- State of the simulated chip: its contents and the bytes received since chip-select
went low. -/
structure FlashChip where
  mem : Nat → Byte
  frame : List (Option Byte)

/-- Big-endian value of a list of address bytes (an unspecified byte counts as 0). -/
def decodeAddr (bytes : List (Option Byte)) : Nat :=
  bytes.foldl (fun acc b => acc * 256 + (b.getD 0).val) 0

/-- Length of an addressed command header: instruction plus 3 or 4 address bytes. -/
def headerLen (self : SpiFlash) : Nat := if self.addressMode4B then 5 else 4

/-- Page-program as the hardware does it: consecutive bytes go to consecutive offsets
of the addressed page, wrapping to the start of that page at its end. -/
def programPage (pageSize : Nat) (base : Nat) : (Nat → Byte) → Nat → List (Option Byte) → (Nat → Byte)
  | mem, _, [] => mem
  | mem, off, b :: bs =>
    programPage pageSize base (fun a => if a = base + off then b.getD 0xFF else mem a)
      ((off + 1) % pageSize) bs

/-- The byte the simulated chip drives on MISO after having received `frame`: inside a
read command, the byte at the addressed location plus the number of bytes already
streamed; otherwise 0 (in particular the status register reads 0, never busy). -/
def simOut (self : SpiFlash) (mem : Nat → Byte) (frame : List (Option Byte)) : Byte :=
  if frame.head? = some (some (readInst self)) ∧ headerLen self ≤ frame.length then
    mem (decodeAddr ((frame.take (headerLen self)).tail) + (frame.length - headerLen self))
  else 0

/-- What the simulated chip does when chip-select goes high: a page-program command
stores its payload. -/
def simCommit (self : SpiFlash) (d : FlashChip) : FlashChip :=
  if d.frame.head? = some (some (pageProgramInst self)) ∧ headerLen self ≤ d.frame.length then
    let addr := decodeAddr ((d.frame.take (headerLen self)).tail)
    { mem := programPage self.pageSize (addr - addr % self.pageSize) d.mem (addr % self.pageSize)
               (d.frame.drop (headerLen self)),
      frame := [] }
  else { d with frame := [] }

/-- The simulated chip, with the addressing mode and page size of the handle. -/
def flashSim (self : SpiFlash) (clock : Nat → Nat) : Env FlashChip where
  select := fun d => { d with frame := [] }
  deselect := simCommit self
  exchange := fun d b => ({ d with frame := d.frame ++ [b] }, simOut self d.mem d.frame)
  clock := clock

/-- Number of addresses the header of the addressing mode can express. -/
def addrSpace (self : SpiFlash) : Nat := if self.addressMode4B then 4294967296 else 16777216

/-! ## One iteration of the paging loops -/

/-- The world after the write-enable and the page-program transaction of one iteration
of the loop of `writeData`. -/
def programChunk {δ : Type} (env : Env δ) (self : SpiFlash) (addr curBuf count : Nat)
    (w : World δ) : World δ :=
  let txBuf := setInstWithAddr self (if self.addressMode4B then 0x12 else 0x02) addr txBuf5
  let w1 := writeEnable env self w
  let w2 := beginTransaction env self w1
  let w3 := (spiTransfer env (some txBuf) false (if self.addressMode4B then 5 else 4) w2).1
  let w4 := (spiTransfer env (some ((ramBytes w3.ram curBuf count).map some)) false count w3).1
  endTransaction env self w4

/-- The world after the read transaction of one iteration of the loop of `readData`. -/
def readChunk {δ : Type} (env : Env δ) (self : SpiFlash) (addr curBuf bufLen : Nat)
    (w : World δ) : World δ :=
  let txBuf := setInstWithAddr self (if self.addressMode4B then 0x13 else 0x03) addr txBuf5
  let w1 := beginTransaction env self w
  let w2 := (spiTransfer env (some txBuf) false (if self.addressMode4B then 5 else 4) w1).1
  let r := spiTransfer env none true bufLen w2
  let w3 := { r.1 with ram := storeBytes r.1.ram curBuf r.2 }
  endTransaction env self w3

/-- The `count` of one iteration of the paging loops. -/
def chunkCount (pageSize addr bufLen : Nat) : Nat :=
  if subU (addU (addr - addr % pageSize) pageSize) addr > bufLen then bufLen
  else subU (addU (addr - addr % pageSize) pageSize) addr

/-! ## Concrete configurations used in the examples -/

/-- A handle for a chip with 256-byte pages and 3-byte addresses on an exclusive bus. -/
def exampleFlash : SpiFlash where
  cs := 5
  sharedBus := false
  sharedBusDelay := 0
  spiBitOrder := 1
  spiClockSpeedMHz := 30
  manufacturerId := 0xEF
  addressMode4B := false
  pageSize := 256
  waitWriteCompletionTimeoutMs := 500
  pageProgramTimeoutMs := 10
  sectorEraseTimeoutMs := 500
  chipEraseTimeoutMs := 50000
  writeEnableDelayUs := 0

/-- The same handle with a page size of 3 bytes. -/
def oddPageFlash : SpiFlash := { exampleFlash with pageSize := 3 }

/-- A clock that advances by one millisecond per reading. -/
def tickClock : Nat → Nat := fun k => k

/-- A world with an erased simulated chip and RAM holding the byte `a mod 256` at `a`. -/
def simWorld : World FlashChip where
  dev := { mem := fun _ => 0xFF, frame := [] }
  ram := fun a => toU8 a
  ticks := 0
  log := []

/-- A device that answers every byte with 0xFF: permanently busy, or not there at all. -/
def stuckEnv : Env Unit where
  select := id
  deselect := id
  exchange := fun d _ => (d, 0xFF)
  clock := tickClock

/-- A world for `stuckEnv`. -/
def stuckWorld : World Unit where
  dev := ()
  ram := fun _ => 0
  ticks := 0
  log := []

/-! ## Further projections of the log -/

/-- The lengths of the receive buffers filled by the transfers of an event list. -/
def rxLengths (es : List Event) : List Nat :=
  es.filterMap (fun e => match e with
    | Event.transfer _ (some rx) => some rx.length
    | _ => none)

/-- What the chip answers to the identify transaction started in state `d`. -/
def identifyResponse {δ : Type} (env : Env δ) (d : δ) : List Byte :=
  (exchangeAll env (env.select d) [some 0x9f, none, none, none]).2

/-- The frames of the read transactions of `readData` over the given chunks with
`remaining` bytes still to read: header for the chunk's start, then one unspecified
byte clocked out for every byte clocked in. -/
def readFrames (self : SpiFlash) : Nat → List (Nat × Nat) → List (List (Option Byte))
  | _, [] => []
  | remaining, (addr, count) :: cs =>
    (addrFrame self (readInst self) addr ++ List.replicate remaining none)
      :: readFrames self (remaining - count) cs

/-- The frames of an event list other than read-status polls. -/
def commandFrames (es : List Event) : List (List (Option Byte)) :=
  (mosiFrames none es).filter (fun f => f != [some 0x05, some 0])

/-! ## Effects of the primitive operations -/

theorem beginTransaction_log {δ : Type} (env : Env δ) (self : SpiFlash) (w : World δ) :
    (beginTransaction env self w).log = w.log ++ beginEvents self := by
  unfold beginTransaction beginEvents setSpiSettings emit
  by_cases h1 : self.sharedBus = true <;> by_cases h2 : self.sharedBusDelay = 0 <;> simp [h1, h2]

theorem beginTransaction_dev {δ : Type} (env : Env δ) (self : SpiFlash) (w : World δ) :
    (beginTransaction env self w).dev = env.select w.dev := by
  unfold beginTransaction setSpiSettings emit
  by_cases h1 : self.sharedBus = true <;> by_cases h2 : self.sharedBusDelay = 0 <;> simp [h1, h2]

theorem beginTransaction_ram {δ : Type} (env : Env δ) (self : SpiFlash) (w : World δ) :
    (beginTransaction env self w).ram = w.ram := by
  unfold beginTransaction setSpiSettings emit
  by_cases h1 : self.sharedBus = true <;> by_cases h2 : self.sharedBusDelay = 0 <;> simp [h1, h2]

theorem beginTransaction_ticks {δ : Type} (env : Env δ) (self : SpiFlash) (w : World δ) :
    (beginTransaction env self w).ticks = w.ticks := by
  unfold beginTransaction setSpiSettings emit
  by_cases h1 : self.sharedBus = true <;> by_cases h2 : self.sharedBusDelay = 0 <;> simp [h1, h2]

theorem exchangeAll_length {δ : Type} (env : Env δ) (tx : List (Option Byte)) :
    ∀ d : δ, (exchangeAll env d tx).2.length = tx.length := by
  induction tx with
  | nil => intro d; rfl
  | cons b bs ih => intro d; simp [exchangeAll, ih]

theorem readStatus_log {δ : Type} (env : Env δ) (self : SpiFlash) (w : World δ) :
    (readStatus env self w).1.log
      = w.log ++ statusEvents self (exchangeAll env (env.select w.dev) [some 0x05, some 0]).2 := by
  simp [readStatus, endTransaction, spiTransfer, beginTransaction_log, beginTransaction_dev,
    statusEvents, txnEvents, txBytes]

theorem readStatus_ram {δ : Type} (env : Env δ) (self : SpiFlash) (w : World δ) :
    (readStatus env self w).1.ram = w.ram := by
  simp [readStatus, endTransaction, spiTransfer, beginTransaction_ram]

theorem readStatus_ticks {δ : Type} (env : Env δ) (self : SpiFlash) (w : World δ) :
    (readStatus env self w).1.ticks = w.ticks := by
  simp [readStatus, endTransaction, spiTransfer, beginTransaction_ticks]

theorem readStatus_val {δ : Type} (env : Env δ) (self : SpiFlash) (w : World δ) :
    (readStatus env self w).2
      = (exchangeAll env (env.select w.dev) [some 0x05, some 0]).2.getD 1 0 := by
  simp [readStatus, endTransaction, spiTransfer, beginTransaction_dev, txBytes]

theorem writeEnable_log {δ : Type} (env : Env δ) (self : SpiFlash) (w : World δ) :
    (writeEnable env self w).log = w.log ++ wrenEvents self := by
  unfold writeEnable wrenEvents
  by_cases h : self.writeEnableDelayUs > 0 <;>
    simp [h, emit, endTransaction, spiTransfer, beginTransaction_log, txnEvents, txBytes]

theorem writeEnable_ram {δ : Type} (env : Env δ) (self : SpiFlash) (w : World δ) :
    (writeEnable env self w).ram = w.ram := by
  unfold writeEnable
  by_cases h : self.writeEnableDelayUs > 0 <;>
    simp [h, emit, endTransaction, spiTransfer, beginTransaction_ram]

theorem isWriteInProgress_log {δ : Type} (env : Env δ) (self : SpiFlash) (w : World δ) :
    (isWriteInProgress env self w).1.log = w.log ++ statusEvents self (statusResponse env w.dev) := by
  simp [isWriteInProgress, readStatus_log, statusResponse]

theorem isWriteInProgress_ram {δ : Type} (env : Env δ) (self : SpiFlash) (w : World δ) :
    (isWriteInProgress env self w).1.ram = w.ram := by
  simp [isWriteInProgress, readStatus_ram]

theorem isWriteInProgress_ticks {δ : Type} (env : Env δ) (self : SpiFlash) (w : World δ) :
    (isWriteInProgress env self w).1.ticks = w.ticks := by
  simp [isWriteInProgress, readStatus_ticks]

theorem isWriteInProgress_val {δ : Type} (env : Env δ) (self : SpiFlash) (w : World δ) :
    (isWriteInProgress env self w).2 = wipOf (statusResponse env w.dev) := by
  simp [isWriteInProgress, readStatus_val, statusResponse, wipOf]

/-! ## Write-completion polling -/

theorem waitLoop_trace {δ : Type} (env : Env δ) (self : SpiFlash) (startTime timeout : Nat) :
    ∀ (fuel : Nat) (w w' : World δ), waitLoop env self startTime timeout fuel w = some w' →
      ∃ es, w'.log = w.log ++ es ∧ PollTrace self timeout startTime es ∧ w'.ram = w.ram := by
  intro fuel
  induction fuel with
  | zero => intro w w' h; simp [waitLoop] at h
  | succ n ih =>
    intro w w' h
    rw [waitLoop] at h
    simp only [isWriteInProgress_val] at h
    by_cases hw : wipOf (statusResponse env w.dev) = true
    · simp only [hw, if_true] at h
      by_cases ht : subU (millis env (isWriteInProgress env self w).1).2 startTime < timeout
      · simp only [ht, if_true] at h
        obtain ⟨es, hlog, htr, hram⟩ := ih _ _ h
        refine ⟨_, ?_, PollTrace.again _ _ es hw ht htr, ?_⟩
        · rw [hlog]
          by_cases h5 : timeout > 500 <;>
            simp [h5, emit, millis, isWriteInProgress_log, isWriteInProgress_ticks]
        · rw [hram]
          by_cases h5 : timeout > 500 <;> simp [h5, emit, millis, isWriteInProgress_ram]
      · simp only [ht, if_false, Option.some.injEq] at h
        subst h
        refine ⟨_, ?_, PollTrace.expired _ _ hw ht, ?_⟩
        · simp [millis, isWriteInProgress_log, isWriteInProgress_ticks]
        · simp [millis, isWriteInProgress_ram]
    · simp only [Bool.not_eq_true] at hw
      simp only [hw, Bool.false_eq_true, if_false, Option.some.injEq] at h
      subst h
      exact ⟨_, isWriteInProgress_log env self w, PollTrace.idle _ hw, isWriteInProgress_ram env self w⟩

theorem waitForWriteComplete_trace {δ : Type} (env : Env δ) (self : SpiFlash)
    (fuel timeout : Nat) (w w' : World δ)
    (h : waitForWriteComplete env self fuel timeout w = some w') :
    ∃ es, w'.log = w.log ++ es ∧ IsPoll self timeout es ∧ w'.ram = w.ram := by
  unfold waitForWriteComplete at h
  obtain ⟨es, hlog, htr, hram⟩ := waitLoop_trace env self _ _ _ _ _ h
  refine ⟨Event.millis (env.clock w.ticks % wordSize) :: es, ?_, ⟨_, es, rfl, ?_⟩, ?_⟩
  · rw [hlog]; simp [millis]
  · simpa [effectiveTimeout, millis] using htr
  · rw [hram]; simp [millis]

theorem countP_beginEvents_status (self : SpiFlash) :
    (beginEvents self).countP isStatusRead = 0 := by
  unfold beginEvents
  by_cases h1 : self.sharedBus = true <;> by_cases h2 : self.sharedBusDelay = 0 <;>
    simp [h1, h2, List.countP_cons, isStatusRead]

theorem countP_beginEvents_yield (self : SpiFlash) :
    (beginEvents self).countP isYield = 0 := by
  unfold beginEvents
  by_cases h1 : self.sharedBus = true <;> by_cases h2 : self.sharedBusDelay = 0 <;>
    simp [h1, h2, List.countP_cons, isYield]

theorem countP_statusEvents_status (self : SpiFlash) (rx : List Byte) :
    (statusEvents self rx).countP isStatusRead = 1 := by
  simp [statusEvents, txnEvents, List.countP_append, countP_beginEvents_status,
    List.countP_cons, isStatusRead]

theorem countP_statusEvents_yield (self : SpiFlash) (rx : List Byte) :
    (statusEvents self rx).countP isYield = 0 := by
  simp [statusEvents, txnEvents, List.countP_append, countP_beginEvents_yield,
    List.countP_cons, isYield]

theorem waitLoop_busy {δ : Type} (env : Env δ) (self : SpiFlash) (startTime timeout : Nat)
    (hbusy : ∀ d, wipOf (statusResponse env d) = true) :
    ∀ (m fuel : Nat) (w : World δ), m < fuel →
      timeout ≤ subU (env.clock (w.ticks + m) % wordSize) startTime →
      ∃ w' n es, waitLoop env self startTime timeout fuel w = some w' ∧ n ≤ m
        ∧ w'.ticks = w.ticks + n + 1
        ∧ timeout ≤ subU (env.clock (w.ticks + n) % wordSize) startTime
        ∧ (∀ i, i < n → subU (env.clock (w.ticks + i) % wordSize) startTime < timeout)
        ∧ w'.log = w.log ++ es
        ∧ PollTrace self timeout startTime es
        ∧ es.countP isStatusRead = n + 1
        ∧ es.countP isYield = (if timeout > 500 then n else 0) := by
  intro m
  induction m with
  | zero =>
    intro fuel w hf hm
    obtain ⟨f, rfl⟩ : ∃ f, fuel = f + 1 := ⟨fuel - 1, by omega⟩
    have ht : ¬ subU (env.clock w.ticks % wordSize) startTime < timeout := by
      simpa using hm
    refine ⟨(millis env (isWriteInProgress env self w).1).1, 0,
      statusEvents self (statusResponse env w.dev) ++ [Event.millis (env.clock w.ticks % wordSize)],
      ?_, le_refl _, ?_, by simpa using hm, by intro i hi; omega, ?_,
      PollTrace.expired _ _ (hbusy _) ht, ?_, ?_⟩
    · rw [waitLoop]
      simp [isWriteInProgress_val, hbusy, millis, isWriteInProgress_ticks, ht]
    · simp [millis, isWriteInProgress_ticks]
    · simp [millis, isWriteInProgress_log, isWriteInProgress_ticks]
    · simp [List.countP_append, countP_statusEvents_status, List.countP_cons, isStatusRead]
    · simp [List.countP_append, countP_statusEvents_yield, List.countP_cons, isYield]
  | succ m ih =>
    intro fuel w hf hm
    obtain ⟨f, rfl⟩ : ∃ f, fuel = f + 1 := ⟨fuel - 1, by omega⟩
    by_cases ht : subU (env.clock w.ticks % wordSize) startTime < timeout
    · -- the loop body is entered and the loop goes round
      let w1 : World δ :=
        if timeout > 500 then emit (Event.delay 1) (millis env (isWriteInProgress env self w).1).1
        else (millis env (isWriteInProgress env self w).1).1
      have hw1t : w1.ticks = w.ticks + 1 := by
        by_cases h5 : timeout > 500 <;> simp [w1, h5, emit, millis, isWriteInProgress_ticks]
      have hw1l : w1.log = w.log ++ (statusEvents self (statusResponse env w.dev)
          ++ [Event.millis (env.clock w.ticks % wordSize)]
          ++ (if timeout > 500 then [Event.delay 1] else [])) := by
        by_cases h5 : timeout > 500 <;>
          simp [w1, h5, emit, millis, isWriteInProgress_log, isWriteInProgress_ticks]
      have hm1 : timeout ≤ subU (env.clock (w1.ticks + m) % wordSize) startTime := by
        rw [hw1t]; rw [show w.ticks + 1 + m = w.ticks + (m + 1) by omega]; exact hm
      obtain ⟨w', n, es, hrun, hn, hticks, hexp, hbelow, hlog, htr, hcs, hcy⟩ :=
        ih f w1 (by omega) hm1
      refine ⟨w', n + 1, statusEvents self (statusResponse env w.dev)
          ++ [Event.millis (env.clock w.ticks % wordSize)]
          ++ (if timeout > 500 then [Event.delay 1] else []) ++ es,
        ?_, by omega, ?_, ?_, ?_, ?_, PollTrace.again _ _ es (hbusy _) ht htr, ?_, ?_⟩
      · rw [waitLoop]
        simp only [isWriteInProgress_val, hbusy, if_true]
        have ht2 : subU (millis env (isWriteInProgress env self w).1).2 startTime < timeout := by
          simpa [millis, isWriteInProgress_ticks] using ht
        simp only [ht2, if_true]
        exact hrun
      · rw [hticks, hw1t]; omega
      · rw [hw1t] at hexp
        rw [show w.ticks + (n + 1) = w.ticks + 1 + n by omega]; exact hexp
      · intro i hi
        cases i with
        | zero => simpa using ht
        | succ j =>
          have := hbelow j (by omega)
          rw [hw1t] at this
          rw [show w.ticks + (j + 1) = w.ticks + 1 + j by omega]; exact this
      · rw [hlog, hw1l]; simp
      · by_cases h5 : timeout > 500 <;>
          simp [h5, List.countP_append, countP_statusEvents_status, List.countP_cons,
            isStatusRead, hcs] <;> omega
      · by_cases h5 : timeout > 500 <;>
          simp [h5, List.countP_append, countP_statusEvents_yield, List.countP_cons,
            isYield, hcy]
    · -- the timeout has already expired at this reading
      refine ⟨(millis env (isWriteInProgress env self w).1).1, 0,
        statusEvents self (statusResponse env w.dev) ++ [Event.millis (env.clock w.ticks % wordSize)],
        ?_, Nat.zero_le _, ?_, by simpa using ht, by intro i hi; omega, ?_,
        PollTrace.expired _ _ (hbusy _) ht, ?_, ?_⟩
      · rw [waitLoop]
        simp [isWriteInProgress_val, hbusy, millis, isWriteInProgress_ticks, ht]
      · simp [millis, isWriteInProgress_ticks]
      · simp [millis, isWriteInProgress_log, isWriteInProgress_ticks]
      · simp [List.countP_append, countP_statusEvents_status, List.countP_cons, isStatusRead]
      · simp [List.countP_append, countP_statusEvents_yield, List.countP_cons, isYield]

/-! ## Chunk arithmetic and the loop of writeData -/

theorem chunk_count (pageSize addr : Nat) (hps : 0 < pageSize) (hW : pageSize < wordSize) :
    subU (addU (addr - addr % pageSize) pageSize) addr = pageSize - addr % pageSize := by
  have h1 : addr % pageSize < pageSize := Nat.mod_lt _ hps
  have h2 : addr % pageSize ≤ addr := Nat.mod_le _ _
  generalize addr % pageSize = off at h1 h2 ⊢
  unfold subU addU wordSize at *
  omega

theorem subU_of_le (a b : Nat) (ha : a < wordSize) (hb : b ≤ a) : subU a b = a - b := by
  unfold subU wordSize at *
  omega

theorem ramBytes_length (ram : Nat → Byte) (p n : Nat) : (ramBytes ram p n).length = n := by
  simp [ramBytes]

theorem writeLoop_trace {δ : Type} (env : Env δ) (self : SpiFlash) (pollFuel : Nat)
    (hps : 0 < self.pageSize) (hW : self.pageSize < wordSize)
    (hpoll : PollReturns env self pollFuel self.pageProgramTimeoutMs) :
    ∀ (fuel addr cur bufLen : Nat) (w : World δ), bufLen ≤ fuel → bufLen < wordSize →
      ∃ w' es, writeLoop env self pollFuel fuel addr cur bufLen w = some w'
        ∧ w'.ram = w.ram ∧ w'.log = w.log ++ es
        ∧ WriteTrace self w.ram cur (pageChunks self.pageSize fuel addr bufLen) es := by
  intro fuel
  induction fuel with
  | zero =>
    intro addr cur bufLen w hle _
    have : bufLen = 0 := by omega
    subst this
    exact ⟨w, [], by simp [writeLoop], rfl, by simp, by simpa [pageChunks] using WriteTrace.done cur⟩
  | succ n ih =>
    intro addr cur bufLen w hle hlt
    by_cases hb : bufLen > 0
    · have hps0 : self.pageSize ≠ 0 := by omega
      have hc := chunk_count self.pageSize addr hps hW
      have hoff : addr % self.pageSize < self.pageSize := Nat.mod_lt _ hps
      -- the count of this iteration
      obtain ⟨count, hcount⟩ : ∃ c, c = (if self.pageSize - addr % self.pageSize > bufLen then bufLen
          else self.pageSize - addr % self.pageSize) := ⟨_, rfl⟩
      have hc1 : 1 ≤ count := by rw [hcount]; split <;> omega
      have hc2 : count ≤ bufLen := by rw [hcount]; split <;> omega
      -- the world just before the completion poll
      obtain ⟨w5, hw5⟩ : ∃ w5, w5 = endTransaction env self
          (spiTransfer env (some ((ramBytes
              (spiTransfer env (some (setInstWithAddr self (if self.addressMode4B then 0x12 else 0x02)
                addr txBuf5)) false (if self.addressMode4B then 5 else 4)
                (beginTransaction env self (writeEnable env self w))).1.ram cur count).map some))
            false count
            (spiTransfer env (some (setInstWithAddr self (if self.addressMode4B then 0x12 else 0x02)
                addr txBuf5)) false (if self.addressMode4B then 5 else 4)
                (beginTransaction env self (writeEnable env self w))).1).1 := ⟨_, rfl⟩
      have hw5ram : w5.ram = w.ram := by
        rw [hw5]; simp [endTransaction, spiTransfer, beginTransaction_ram, writeEnable_ram]
      have hw5log : w5.log = w.log ++ (wrenEvents self ++ programEvents self w.ram addr cur count) := by
        rw [hw5]
        simp [endTransaction, spiTransfer, beginTransaction_ram, writeEnable_ram,
          beginTransaction_log, writeEnable_log, programEvents, txnEvents, addrFrame, txBytes,
          ramBytes_length]
      obtain ⟨w6, hw6⟩ := hpoll w5
      obtain ⟨poll, hplog, hpoll6, hpram⟩ := waitForWriteComplete_trace env self _ _ _ _ hw6
      obtain ⟨w', es, hrun, hram, hlog, htr⟩ :=
        ih (addU addr count) (cur + count) (subU bufLen count) w6
          (by rw [subU_of_le _ _ hlt hc2]; omega) (by rw [subU_of_le _ _ hlt hc2]; omega)
      refine ⟨w', wrenEvents self ++ programEvents self w.ram addr cur count ++ poll ++ es,
        ?_, ?_, ?_, ?_⟩
      · rw [writeLoop]
        simp only [hb, if_true, hps0, if_false, hc, ← hcount, ← hw5, hw6]
        exact hrun
      · rw [hram, hpram, hw5ram]
      · rw [hlog, hplog, hw5log]; simp
      · rw [pageChunks]
        simp only [hb, if_true, hc, ← hcount]
        rw [hpram, hw5ram] at htr
        exact WriteTrace.chunk cur addr count _ poll es hpoll6 htr
    · have : bufLen = 0 := by omega
      subst this
      exact ⟨w, [], by simp [writeLoop], rfl, by simp, by simpa [pageChunks] using WriteTrace.done cur⟩

/-! ## Geometry of the chunks -/

theorem pageChunks_nil (pageSize fuel addr : Nat) : pageChunks pageSize fuel addr 0 = [] := by
  cases fuel <;> simp [pageChunks]

theorem splitPages_nil (pageSize fuel addr : Nat) : splitPages pageSize fuel addr 0 = [] := by
  cases fuel <;> simp [splitPages]

theorem pageChunks_eq_splitPages (pageSize : Nat) (hps : 0 < pageSize) (hW : pageSize < wordSize) :
    ∀ (fuel addr bufLen : Nat), bufLen ≤ fuel → addr + bufLen ≤ wordSize → bufLen < wordSize →
      pageChunks pageSize fuel addr bufLen = splitPages pageSize fuel addr bufLen := by
  intro fuel
  induction fuel with
  | zero => intro addr bufLen _ _ _; rfl
  | succ n ih =>
    intro addr bufLen hle hsum hlt
    by_cases hb : bufLen > 0
    · have hc := chunk_count pageSize addr hps hW
      have hoff : addr % pageSize < pageSize := Nat.mod_lt _ hps
      rw [pageChunks, splitPages]
      simp only [hb, if_true, hc]
      have hmin : (if pageSize - addr % pageSize > bufLen then bufLen
          else pageSize - addr % pageSize) = min (pageSize - addr % pageSize) bufLen := by
        split <;> omega
      rw [hmin]
      generalize hcdef : min (pageSize - addr % pageSize) bufLen = c
      have hc1 : 1 ≤ c := by omega
      have hc2 : c ≤ bufLen := by omega
      rw [subU_of_le _ _ hlt hc2]
      by_cases hlast : bufLen - c = 0
      · rw [hlast, pageChunks_nil, splitPages_nil]
      · have hadd : addU addr c = addr + c := by
          unfold addU wordSize at *; omega
        rw [hadd, ih (addr + c) (bufLen - c) (by omega) (by omega) (by omega)]
    · have : bufLen = 0 := by omega
      subst this
      rw [pageChunks_nil, splitPages_nil]

theorem div_eq_of_chunk (pageSize addr c : Nat) (hps : 0 < pageSize) (h1 : 1 ≤ c)
    (h2 : c ≤ pageSize - addr % pageSize) : addr / pageSize = (addr + c - 1) / pageSize := by
  have hoff : addr % pageSize < pageSize := Nat.mod_lt _ hps
  have hdm : pageSize * (addr / pageSize) + addr % pageSize = addr := Nat.div_add_mod _ _
  symm
  apply Nat.div_eq_of_lt_le
  · rw [Nat.mul_comm]; omega
  · rw [Nat.succ_mul, Nat.mul_comm]; omega

theorem splitPages_geometry (pageSize : Nat) (hps : 0 < pageSize) :
    ∀ (fuel addr length : Nat), length ≤ fuel →
      ((splitPages pageSize fuel addr length).map Prod.snd).sum = length
      ∧ (∀ c ∈ splitPages pageSize fuel addr length,
          1 ≤ c.2 ∧ c.1 / pageSize = (c.1 + c.2 - 1) / pageSize)
      ∧ (∀ (i : Nat) (c : Nat × Nat), (splitPages pageSize fuel addr length)[i]? = some c →
          c.1 = addr + (((splitPages pageSize fuel addr length).take i).map Prod.snd).sum) := by
  intro fuel
  induction fuel with
  | zero => intro addr length h; simp [splitPages] at *; omega
  | succ n ih =>
    intro addr length hle
    by_cases hb : length > 0
    · have hoff : addr % pageSize < pageSize := Nat.mod_lt _ hps
      have hsplit : splitPages pageSize (n + 1) addr length
          = (addr, min (pageSize - addr % pageSize) length)
            :: splitPages pageSize n (addr + min (pageSize - addr % pageSize) length)
                (length - min (pageSize - addr % pageSize) length) := by
        rw [splitPages]; simp only [hb, if_true]
      rw [hsplit]
      generalize hcdef : min (pageSize - addr % pageSize) length = c
      have hc1 : 1 ≤ c := by omega
      have hc2 : c ≤ length := by omega
      have hc3 : c ≤ pageSize - addr % pageSize := by omega
      obtain ⟨hsum, hmem, hget⟩ := ih (addr + c) (length - c) (by omega)
      refine ⟨?_, ?_, ?_⟩
      · simp only [List.map_cons, List.sum_cons, hsum]; omega
      · intro x hx
        rcases List.mem_cons.mp hx with rfl | hx
        · exact ⟨hc1, div_eq_of_chunk pageSize addr c hps hc1 hc3⟩
        · exact hmem x hx
      · intro i x h
        cases i with
        | zero =>
          simp only [List.getElem?_cons_zero, Option.some.injEq] at h
          subst h; simp
        | succ j =>
          simp only [List.getElem?_cons_succ] at h
          have := hget j x h
          simp only [List.take_succ_cons, List.map_cons, List.sum_cons]
          rw [this]; omega
    · have : length = 0 := by omega
      subst this
      simp [splitPages_nil]

theorem splitPages_aligned (pageSize : Nat) (hps : 0 < pageSize) :
    ∀ (fuel base rest : Nat), base % pageSize = 0 → 0 < rest → rest ≤ fuel →
      splitPages pageSize fuel base rest
        = (List.range ((rest - 1) / pageSize)).map (fun i => (base + i * pageSize, pageSize))
          ++ [(base + (rest - 1) / pageSize * pageSize, rest - (rest - 1) / pageSize * pageSize)] := by
  intro fuel
  induction fuel with
  | zero => intro base rest _ h1 h2; omega
  | succ n ih =>
    intro base rest hbase hpos hle
    rw [splitPages]
    simp only [gt_iff_lt, hpos, if_true, hbase, Nat.sub_zero]
    by_cases hsmall : rest ≤ pageSize
    · have hq : (rest - 1) / pageSize = 0 := Nat.div_eq_of_lt (by omega)
      rw [hq, Nat.min_eq_right hsmall]
      simp [splitPages_nil]
    · have hq : (rest - 1) / pageSize = (rest - pageSize - 1) / pageSize + 1 := by
        have : rest - 1 = (rest - pageSize - 1) + pageSize := by omega
        rw [this, Nat.add_div_right _ hps]
      have hbase2 : (base + pageSize) % pageSize = 0 := by
        rw [Nat.add_mod_right]; exact hbase
      rw [Nat.min_eq_left (by omega : pageSize ≤ rest),
        ih (base + pageSize) (rest - pageSize) hbase2 (by omega) (by omega), hq,
        List.range_succ_eq_map]
      simp only [List.map_cons, List.map_map, Nat.zero_mul, Nat.add_zero, List.cons_append,
        List.cons.injEq, true_and]
      have e1 : ∀ i : Nat, base + pageSize + i * pageSize = base + (i + 1) * pageSize := by
        intro i; rw [Nat.add_mul, Nat.one_mul]; omega
      have e2 : rest - pageSize - (rest - pageSize - 1) / pageSize * pageSize
          = rest - ((rest - pageSize - 1) / pageSize + 1) * pageSize := by
        rw [Nat.add_mul, Nat.one_mul]; omega
      simp only [e1, e2, Function.comp_def, Nat.succ_eq_add_one]

theorem splitPages_eq_expected (pageSize : Nat) (hps : 0 < pageSize) (fuel addr length : Nat)
    (hle : length ≤ fuel) : splitPages pageSize fuel addr length = expectedChunks pageSize addr length := by
  unfold expectedChunks firstChunk
  by_cases hlen : length = 0
  · subst hlen; simp [splitPages_nil]
  · obtain ⟨n, rfl⟩ : ∃ n, fuel = n + 1 := ⟨fuel - 1, by omega⟩
    have hoff : addr % pageSize < pageSize := Nat.mod_lt _ hps
    rw [splitPages]
    simp only [gt_iff_lt, Nat.pos_of_ne_zero hlen, if_true, hlen, if_false]
    by_cases hrest : length - min (pageSize - addr % pageSize) length = 0
    · simp only [hrest, if_true, splitPages_nil]
    · simp only [hrest, if_false]
      have hfirst : min (pageSize - addr % pageSize) length = pageSize - addr % pageSize := by omega
      have hal : (addr + min (pageSize - addr % pageSize) length) % pageSize = 0 := by
        rw [hfirst]
        have hdm : pageSize * (addr / pageSize) + addr % pageSize = addr := Nat.div_add_mod _ _
        have : addr + (pageSize - addr % pageSize) = pageSize * (addr / pageSize) + pageSize := by omega
        rw [this, Nat.add_mod_right, Nat.mul_mod_right]
      rw [splitPages_aligned pageSize hps n _ _ hal (by omega) (by omega)]

/-! ## Frames seen by the chip -/

theorem addrFrame_eq (self : SpiFlash) (inst : Byte) (addr : Nat) :
    addrFrame self inst addr
      = if self.addressMode4B then
          [some inst, some (toU8 (addr >>> 24)), some (toU8 (addr >>> 16)),
            some (toU8 (addr >>> 8)), some (toU8 addr)]
        else
          [some inst, some (toU8 (addr >>> 16)), some (toU8 (addr >>> 8)), some (toU8 addr)] := by
  unfold addrFrame setInstWithAddr txBuf5 txBytes
  by_cases h : self.addressMode4B = true <;> simp [h, List.replicate, List.set, List.take]

theorem mosiFrames_begin (self : SpiFlash) (st : Option (List (Option Byte))) (rest : List Event) :
    mosiFrames st (beginEvents self ++ rest) = mosiFrames (some []) rest := by
  unfold beginEvents
  by_cases h1 : self.sharedBus = true <;> by_cases h2 : self.sharedBusDelay = 0 <;>
    cases st <;> simp [h1, h2, mosiFrames]

theorem mosiFrames_txn1 (self : SpiFlash) (st : Option (List (Option Byte)))
    (tx : List (Option Byte)) (rx : Option (List Byte)) (rest : List Event) :
    mosiFrames st (txnEvents self [Event.transfer tx rx] ++ rest) = tx :: mosiFrames none rest := by
  unfold txnEvents
  rw [List.append_assoc, List.append_assoc, mosiFrames_begin]
  simp [mosiFrames]

theorem mosiFrames_txn2 (self : SpiFlash) (st : Option (List (Option Byte)))
    (tx1 tx2 : List (Option Byte)) (rx1 rx2 : Option (List Byte)) (rest : List Event) :
    mosiFrames st (txnEvents self [Event.transfer tx1 rx1, Event.transfer tx2 rx2] ++ rest)
      = (tx1 ++ tx2) :: mosiFrames none rest := by
  unfold txnEvents
  rw [List.append_assoc, List.append_assoc, mosiFrames_begin]
  simp [mosiFrames]

theorem mosiFrames_status (self : SpiFlash) (rx : List Byte) (rest : List Event) :
    mosiFrames none (statusEvents self rx ++ rest) = [some 0x05, some 0] :: mosiFrames none rest := by
  unfold statusEvents; rw [mosiFrames_txn1]

theorem mosiFrames_wren (self : SpiFlash) (rest : List Event) :
    mosiFrames none (wrenEvents self ++ rest) = [some 0x06] :: mosiFrames none rest := by
  unfold wrenEvents
  rw [List.append_assoc, mosiFrames_txn1]
  by_cases h : self.writeEnableDelayUs > 0 <;> simp [h, mosiFrames]

theorem mosiFrames_pollTrace (self : SpiFlash) (timeout startTime : Nat) (es : List Event)
    (h : PollTrace self timeout startTime es) :
    ∀ rest, ∃ n, mosiFrames none (es ++ rest)
      = List.replicate (n + 1) [some 0x05, some 0] ++ mosiFrames none rest := by
  induction h with
  | idle rx _ => intro rest; exact ⟨0, by rw [mosiFrames_status]; rfl⟩
  | expired rx now _ _ =>
    intro rest
    refine ⟨0, ?_⟩
    rw [List.append_assoc, mosiFrames_status]
    simp [mosiFrames, List.replicate]
  | again rx now tl _ _ _ ih =>
    intro rest
    obtain ⟨n, hn⟩ := ih rest
    refine ⟨n + 1, ?_⟩
    rw [List.append_assoc, List.append_assoc, List.append_assoc, mosiFrames_status]
    by_cases h5 : timeout > 500 <;> simp [h5, mosiFrames, hn, List.replicate]

theorem mosiFrames_poll (self : SpiFlash) (timeout : Nat) (es : List Event)
    (h : IsPoll self timeout es) :
    ∀ rest, ∃ n, mosiFrames none (es ++ rest)
      = List.replicate (n + 1) [some 0x05, some 0] ++ mosiFrames none rest := by
  obtain ⟨t0, tl, rfl, htr⟩ := h
  intro rest
  obtain ⟨n, hn⟩ := mosiFrames_pollTrace self _ _ tl htr rest
  exact ⟨n, by simpa [mosiFrames] using hn⟩

theorem filter_status_frames (self : SpiFlash) (n : Nat) (fs : List (List (Option Byte))) :
    (List.replicate n [some (0x05 : Byte), some 0] ++ fs).filter (startsWith (pageProgramInst self))
      = fs.filter (startsWith (pageProgramInst self)) := by
  induction n with
  | zero => simp
  | succ k ih =>
    rw [List.replicate_succ, List.cons_append, List.filter_cons_of_neg, ih]
    unfold startsWith pageProgramInst
    by_cases h : self.addressMode4B = true <;> simp [h]

theorem programFrames_writeTrace (self : SpiFlash) (ram : Nat → Byte) (cur : Nat)
    (cs : List (Nat × Nat)) (body : List Event) (h : WriteTrace self ram cur cs body) :
    ∀ rest, (mosiFrames none (body ++ rest)).filter (startsWith (pageProgramInst self))
      = chunkFrames self ram cur cs
        ++ (mosiFrames none rest).filter (startsWith (pageProgramInst self)) := by
  induction h with
  | done cur => intro rest; simp [chunkFrames]
  | chunk cur addr count cs poll tl hp _ ih =>
    intro rest
    obtain ⟨n, hn⟩ := mosiFrames_poll self _ poll hp (tl ++ rest)
    have hw : ¬ startsWith (pageProgramInst self) [some (0x06 : Byte)] = true := by
      unfold startsWith pageProgramInst
      by_cases h : self.addressMode4B = true <;> simp [h]
    have hp2 : startsWith (pageProgramInst self)
        (addrFrame self (pageProgramInst self) addr ++ (ramBytes ram cur count).map some) = true := by
      rw [addrFrame_eq]
      unfold startsWith
      by_cases h : self.addressMode4B = true <;> simp [h]
    rw [List.append_assoc, List.append_assoc, List.append_assoc, mosiFrames_wren,
      List.filter_cons_of_neg hw]
    unfold programEvents
    rw [mosiFrames_txn2, ← pageProgramInst, List.filter_cons_of_pos hp2, hn,
      filter_status_frames, ih rest, chunkFrames]
    rfl

/-! ## Traces of writeData, the erase operations and readData -/

theorem writeData_trace {δ : Type} (env : Env δ) (self : SpiFlash) (pollFuel : Nat)
    (addr buf bufLen : Nat) (w : World δ)
    (hps : 0 < self.pageSize) (hW : self.pageSize < wordSize) (hlen : bufLen < wordSize)
    (hpoll0 : PollReturns env self pollFuel defaultTimeout)
    (hpoll : PollReturns env self pollFuel self.pageProgramTimeoutMs) :
    ∃ w' p0 body, writeData env self pollFuel addr buf bufLen w = some w'
      ∧ w'.ram = w.ram ∧ w'.log = w.log ++ (p0 ++ body)
      ∧ IsPoll self defaultTimeout p0
      ∧ WriteTrace self w.ram buf (pageChunks self.pageSize bufLen addr bufLen) body := by
  obtain ⟨w0, hw0⟩ := hpoll0 w
  obtain ⟨p0, hp0log, hp0, hp0ram⟩ := waitForWriteComplete_trace env self _ _ _ _ hw0
  obtain ⟨w', body, hrun, hram, hlog, htr⟩ :=
    writeLoop_trace env self pollFuel hps hW hpoll bufLen addr buf bufLen w0 (le_refl _) hlen
  refine ⟨w', p0, body, ?_, ?_, ?_, hp0, ?_⟩
  · unfold writeData; rw [hw0]; exact hrun
  · rw [hram, hp0ram]
  · rw [hlog, hp0log]; simp
  · rw [hp0ram] at htr; exact htr

theorem sectorErase_trace {δ : Type} (env : Env δ) (self : SpiFlash) (pollFuel addr : Nat)
    (w : World δ) (hpoll0 : PollReturns env self pollFuel defaultTimeout)
    (hpoll : PollReturns env self pollFuel self.sectorEraseTimeoutMs) :
    ∃ w' p0 p1, sectorErase env self pollFuel addr w = some w'
      ∧ w'.log = w.log ++ (p0 ++ wrenEvents self
          ++ eraseEvents self (if self.addressMode4B then 0x21 else 0x20) addr ++ p1)
      ∧ IsPoll self defaultTimeout p0 ∧ IsPoll self self.sectorEraseTimeoutMs p1 := by
  obtain ⟨w0, hw0⟩ := hpoll0 w
  obtain ⟨p0, hp0log, hp0, -⟩ := waitForWriteComplete_trace env self _ _ _ _ hw0
  obtain ⟨w1, hw1⟩ := hpoll (endTransaction env self
    (spiTransfer env (some (setInstWithAddr self (if self.addressMode4B then 0x21 else 0x20) addr txBuf5))
      false (if self.addressMode4B then 5 else 4)
      (beginTransaction env self (writeEnable env self w0))).1)
  obtain ⟨p1, hp1log, hp1, -⟩ := waitForWriteComplete_trace env self _ _ _ _ hw1
  refine ⟨w1, p0, p1, ?_, ?_, hp0, hp1⟩
  · unfold sectorErase; rw [hw0]; exact hw1
  · rw [hp1log]
    simp [endTransaction, spiTransfer, beginTransaction_log, writeEnable_log, hp0log,
      eraseEvents, txnEvents, addrFrame]

theorem blockErase_trace {δ : Type} (env : Env δ) (self : SpiFlash) (pollFuel addr : Nat)
    (w : World δ) (hpoll0 : PollReturns env self pollFuel defaultTimeout)
    (hpoll : PollReturns env self pollFuel self.chipEraseTimeoutMs) :
    ∃ w' p0 p1, blockErase env self pollFuel addr w = some w'
      ∧ w'.log = w.log ++ (p0 ++ wrenEvents self
          ++ eraseEvents self (if self.addressMode4B then 0xDC else 0xD8) addr ++ p1)
      ∧ IsPoll self defaultTimeout p0 ∧ IsPoll self self.chipEraseTimeoutMs p1 := by
  obtain ⟨w0, hw0⟩ := hpoll0 w
  obtain ⟨p0, hp0log, hp0, -⟩ := waitForWriteComplete_trace env self _ _ _ _ hw0
  obtain ⟨w1, hw1⟩ := hpoll (endTransaction env self
    (spiTransfer env (some (setInstWithAddr self (if self.addressMode4B then 0xDC else 0xD8) addr txBuf5))
      false (if self.addressMode4B then 5 else 4)
      (beginTransaction env self (writeEnable env self w0))).1)
  obtain ⟨p1, hp1log, hp1, -⟩ := waitForWriteComplete_trace env self _ _ _ _ hw1
  refine ⟨w1, p0, p1, ?_, ?_, hp0, hp1⟩
  · unfold blockErase; rw [hw0]; exact hw1
  · rw [hp1log]
    simp [endTransaction, spiTransfer, beginTransaction_log, writeEnable_log, hp0log,
      eraseEvents, txnEvents, addrFrame]

theorem storeBytes_outside (ram : Nat → Byte) (p : Nat) (rx : List Byte) (x : Nat)
    (h : x < p ∨ p + rx.length ≤ x) : storeBytes ram p rx x = ram x := by
  unfold storeBytes
  rw [if_neg]
  omega

theorem readLoop_trace {δ : Type} (env : Env δ) (self : SpiFlash)
    (hps : 0 < self.pageSize) (hW : self.pageSize < wordSize) :
    ∀ (fuel addr cur bufLen : Nat) (w : World δ), bufLen ≤ fuel → bufLen < wordSize →
      ∃ w' es, readLoop env self fuel addr cur bufLen w = some w'
        ∧ w'.log = w.log ++ es
        ∧ ReadTrace self bufLen (pageChunks self.pageSize fuel addr bufLen) es
        ∧ (∀ x, x < cur ∨ cur + bufLen ≤ x → w'.ram x = w.ram x) := by
  intro fuel
  induction fuel with
  | zero =>
    intro addr cur bufLen w hle _
    have : bufLen = 0 := by omega
    subst this
    exact ⟨w, [], by simp [readLoop], by simp, by simpa [pageChunks] using ReadTrace.done 0,
      fun _ _ => rfl⟩
  | succ n ih =>
    intro addr cur bufLen w hle hlt
    by_cases hb : bufLen > 0
    · have hps0 : self.pageSize ≠ 0 := by omega
      have hc := chunk_count self.pageSize addr hps hW
      have hoff : addr % self.pageSize < self.pageSize := Nat.mod_lt _ hps
      obtain ⟨count, hcount⟩ : ∃ c, c = (if self.pageSize - addr % self.pageSize > bufLen then bufLen
          else self.pageSize - addr % self.pageSize) := ⟨_, rfl⟩
      have hc1 : 1 ≤ count := by rw [hcount]; split <;> omega
      have hc2 : count ≤ bufLen := by rw [hcount]; split <;> omega
      -- the world after the header transfer, and the receive transfer
      obtain ⟨w2, hw2⟩ : ∃ w2, w2 = (spiTransfer env (some (setInstWithAddr self
          (if self.addressMode4B then 0x13 else 0x03) addr txBuf5)) false
          (if self.addressMode4B then 5 else 4) (beginTransaction env self w)).1 := ⟨_, rfl⟩
      have hw2ram : w2.ram = w.ram := by rw [hw2]; simp [spiTransfer, beginTransaction_ram]
      have hw2log : w2.log = w.log ++ (beginEvents self ++ [Event.transfer
          (addrFrame self (if self.addressMode4B then 0x13 else 0x03) addr) none]) := by
        rw [hw2]; simp [spiTransfer, beginTransaction_log, addrFrame]
      obtain ⟨rx, hrx⟩ : ∃ rx, rx = (spiTransfer env none true bufLen w2).2 := ⟨_, rfl⟩
      have hrxlen : rx.length = bufLen := by
        rw [hrx]; simp [spiTransfer, exchangeAll_length, txBytes]
      obtain ⟨w4, hw4⟩ : ∃ w4, w4 = endTransaction env self
          { (spiTransfer env none true bufLen w2).1 with
            ram := storeBytes (spiTransfer env none true bufLen w2).1.ram cur rx } := ⟨_, rfl⟩
      have hw4ram : w4.ram = storeBytes w.ram cur rx := by
        rw [hw4]; simp [endTransaction, spiTransfer, hw2ram]
      have hw4log : w4.log = w.log ++ txnEvents self
          [Event.transfer (addrFrame self (if self.addressMode4B then 0x13 else 0x03) addr) none,
           Event.transfer (List.replicate bufLen none) (some rx)] := by
        rw [hw4]; simp [endTransaction, spiTransfer, hw2log, txnEvents, txBytes, hrx]
      obtain ⟨w', es, hrun, hlog, htr, hram⟩ :=
        ih (addU addr count) (cur + count) (subU bufLen count) w4
          (by rw [subU_of_le _ _ hlt hc2]; omega) (by rw [subU_of_le _ _ hlt hc2]; omega)
      rw [subU_of_le _ _ hlt hc2] at htr hram
      refine ⟨w', txnEvents self
          [Event.transfer (addrFrame self (if self.addressMode4B then 0x13 else 0x03) addr) none,
           Event.transfer (List.replicate bufLen none) (some rx)] ++ es, ?_, ?_, ?_, ?_⟩
      · rw [readLoop]
        simp only [hb, if_true, hps0, if_false, hc, ← hcount, ← hw2, ← hrx, ← hw4]
        exact hrun
      · rw [hlog, hw4log]; simp
      · rw [pageChunks]
        simp only [hb, if_true, hc, ← hcount]
        rw [subU_of_le _ _ hlt hc2]
        exact ReadTrace.chunk bufLen addr count _ rx es hrxlen htr
      · intro x hx
        rw [hram x (by omega), hw4ram, storeBytes_outside _ _ _ _ (by omega)]
    · have : bufLen = 0 := by omega
      subst this
      exact ⟨w, [], by simp [readLoop], by simp, by simpa [pageChunks] using ReadTrace.done 0,
        fun _ _ => rfl⟩

/-! ## The simulated chip -/

theorem flashSim_exchange (self : SpiFlash) (clock : Nat → Nat) (d : FlashChip) (b : Option Byte) :
    (flashSim self clock).exchange d b
      = ({ mem := d.mem, frame := d.frame ++ [b] }, simOut self d.mem d.frame) := rfl

theorem flashSim_select (self : SpiFlash) (clock : Nat → Nat) (d : FlashChip) :
    (flashSim self clock).select d = { mem := d.mem, frame := [] } := rfl

theorem flashSim_deselect (self : SpiFlash) (clock : Nat → Nat) (d : FlashChip) :
    (flashSim self clock).deselect d = simCommit self d := rfl

theorem sim_exchangeAll_dev (self : SpiFlash) (clock : Nat → Nat) (tx : List (Option Byte)) :
    ∀ d : FlashChip, (exchangeAll (flashSim self clock) d tx).1
      = { mem := d.mem, frame := d.frame ++ tx } := by
  induction tx with
  | nil => intro d; simp [exchangeAll]
  | cons b bs ih => intro d; simp [exchangeAll, ih, flashSim_exchange]

theorem sim_exchangeAll_out (self : SpiFlash) (clock : Nat → Nat) (tx : List (Option Byte)) :
    ∀ (d : FlashChip) (i : Nat), i < tx.length →
      (exchangeAll (flashSim self clock) d tx).2.getD i 0 = simOut self d.mem (d.frame ++ tx.take i) := by
  induction tx with
  | nil => intro d i h; simp at h
  | cons b bs ih =>
    intro d i h
    cases i with
    | zero => simp [exchangeAll, flashSim_exchange]
    | succ j =>
      have := ih ({ d with frame := d.frame ++ [b] }) j (by simpa using h)
      simp only [exchangeAll, List.getD_cons_succ, List.take_succ_cons]
      simpa [flashSim_exchange] using this

theorem programPage_noWrap (pageSize base : Nat) (bs : List (Option Byte)) :
    ∀ (mem : Nat → Byte) (off : Nat), off + bs.length ≤ pageSize → ∀ x,
      programPage pageSize base mem off bs x
        = if base + off ≤ x ∧ x < base + off + bs.length
          then (bs.getD (x - (base + off)) none).getD 0xFF else mem x := by
  induction bs with
  | nil => intro mem off _ x; rw [programPage, if_neg (by simp)]
  | cons b tl ih =>
    intro mem off h x
    rw [programPage]
    cases tl with
    | nil =>
      simp only [programPage, List.length_singleton]
      by_cases hx : x = base + off
      · subst hx; simp
      · rw [if_neg hx, if_neg (by omega)]
    | cons c tl2 =>
      have hlt : off + 1 < pageSize := by simp only [List.length_cons] at h; omega
      rw [Nat.mod_eq_of_lt hlt, ih _ (off + 1) (by simp only [List.length_cons] at h ⊢; omega)]
      by_cases hx : x = base + off
      · subst hx
        rw [if_neg (by omega), if_pos rfl, if_pos (by simp only [List.length_cons]; omega)]
        simp
      · by_cases hr : base + (off + 1) ≤ x ∧ x < base + (off + 1) + (c :: tl2).length
        · rw [if_pos hr, if_pos (by simp only [List.length_cons] at hr ⊢; omega)]
          have : x - (base + off) = (x - (base + (off + 1))) + 1 := by omega
          rw [this, List.getD_cons_succ]
        · rw [if_neg hr, if_neg hx, if_neg (by simp only [List.length_cons] at hr ⊢; omega)]

/-! ## Single iterations -/

theorem writeLoop_step {δ : Type} (env : Env δ) (self : SpiFlash) (pollFuel fuel addr cur bufLen : Nat)
    (w : World δ) (hb : bufLen > 0) (hps : self.pageSize ≠ 0) :
    writeLoop env self pollFuel (fuel + 1) addr cur bufLen w
      = match waitForWriteComplete env self pollFuel self.pageProgramTimeoutMs
            (programChunk env self addr cur (chunkCount self.pageSize addr bufLen) w) with
        | none => none
        | some w6 =>
          writeLoop env self pollFuel fuel (addU addr (chunkCount self.pageSize addr bufLen))
            (cur + chunkCount self.pageSize addr bufLen)
            (subU bufLen (chunkCount self.pageSize addr bufLen)) w6 := by
  rw [writeLoop]
  simp only [hb, if_true, hps, if_false]
  rfl

theorem readLoop_step {δ : Type} (env : Env δ) (self : SpiFlash) (fuel addr cur bufLen : Nat)
    (w : World δ) (hb : bufLen > 0) (hps : self.pageSize ≠ 0) :
    readLoop env self (fuel + 1) addr cur bufLen w
      = readLoop env self fuel (addU addr (chunkCount self.pageSize addr bufLen))
          (cur + chunkCount self.pageSize addr bufLen)
          (subU bufLen (chunkCount self.pageSize addr bufLen))
          (readChunk env self addr cur bufLen w) := by
  rw [readLoop]
  simp only [hb, if_true, hps, if_false]
  rfl

theorem chunkCount_eq (pageSize addr bufLen : Nat) (hps : 0 < pageSize) (hW : pageSize < wordSize) :
    chunkCount pageSize addr bufLen = min (pageSize - addr % pageSize) bufLen := by
  unfold chunkCount
  rw [chunk_count pageSize addr hps hW]
  split <;> omega

theorem waitForWriteComplete_idle {δ : Type} (env : Env δ) (self : SpiFlash) (fuel timeout : Nat)
    (w : World δ) (hidle : wipOf (statusResponse env w.dev) = false) :
    waitForWriteComplete env self (fuel + 1) timeout w
      = some (isWriteInProgress env self (millis env w).1).1 := by
  unfold waitForWriteComplete
  rw [waitLoop]
  have : (isWriteInProgress env self (millis env w).1).2 = false := by
    rw [isWriteInProgress_val]; simpa [millis] using hidle
  simp [this]

theorem readStatus_dev {δ : Type} (env : Env δ) (self : SpiFlash) (w : World δ) :
    (readStatus env self w).1.dev
      = env.deselect (exchangeAll env (env.select w.dev) [some 0x05, some 0]).1 := by
  simp [readStatus, endTransaction, spiTransfer, beginTransaction_dev, txBytes]

theorem writeEnable_dev {δ : Type} (env : Env δ) (self : SpiFlash) (w : World δ) :
    (writeEnable env self w).dev
      = env.deselect (exchangeAll env (env.select w.dev) [some 0x06]).1 := by
  unfold writeEnable
  by_cases h : self.writeEnableDelayUs > 0 <;>
    simp [h, emit, endTransaction, spiTransfer, beginTransaction_dev, txBytes]

theorem decode_addrFrame (self : SpiFlash) (inst : Byte) (addr : Nat) :
    decodeAddr (addrFrame self inst addr).tail = addr % addrSpace self := by
  rw [addrFrame_eq]
  unfold addrSpace
  cases h : self.addressMode4B
  · simp only [Bool.false_eq_true, if_false, List.tail_cons, decodeAddr, List.foldl,
      Option.getD_some, toU8, Nat.shiftRight_eq_div_pow]
    omega
  · simp only [if_true, List.tail_cons, decodeAddr, List.foldl, Option.getD_some, toU8,
      Nat.shiftRight_eq_div_pow]
    omega

theorem addrFrame_length (self : SpiFlash) (inst : Byte) (addr : Nat) :
    (addrFrame self inst addr).length = headerLen self := by
  rw [addrFrame_eq]; unfold headerLen
  by_cases h : self.addressMode4B = true <;> simp [h]

theorem addrFrame_head (self : SpiFlash) (inst : Byte) (addr : Nat) :
    (addrFrame self inst addr).head? = some (some inst) := by
  rw [addrFrame_eq]
  by_cases h : self.addressMode4B = true <;> simp [h]

/-! ## The driver against the simulated chip -/

theorem simCommit_other (self : SpiFlash) (mem : Nat → Byte) (frame : List (Option Byte))
    (h : frame.head? ≠ some (some (pageProgramInst self))) :
    simCommit self { mem := mem, frame := frame } = { mem := mem, frame := [] } := by
  unfold simCommit
  rw [if_neg]
  simp [h]

theorem sim_status_idle (self : SpiFlash) (clock : Nat → Nat) (d : FlashChip) :
    wipOf (statusResponse (flashSim self clock) d) = false := by
  unfold wipOf statusResponse
  rw [sim_exchangeAll_out self clock _ _ 1 (by simp)]
  have : simOut self ((flashSim self clock).select d).mem
      (((flashSim self clock).select d).frame ++ List.take 1 [some 0x05, some 0]) = 0 := by
    unfold simOut readInst
    rw [if_neg]
    cases h : self.addressMode4B <;> simp [flashSim_select]
  rw [this]; rfl

theorem sim_poll (self : SpiFlash) (clock : Nat → Nat) (fuel timeout : Nat) (w : World FlashChip) :
    ∃ w', waitForWriteComplete (flashSim self clock) self (fuel + 1) timeout w = some w'
      ∧ w'.dev.mem = w.dev.mem ∧ w'.ram = w.ram := by
  refine ⟨_, waitForWriteComplete_idle _ self fuel timeout w (sim_status_idle self clock _), ?_, ?_⟩
  · simp only [isWriteInProgress, readStatus_dev, sim_exchangeAll_dev, flashSim_select,
      flashSim_deselect, List.nil_append]
    rw [simCommit_other]
    · simp [millis]
    · unfold pageProgramInst
      cases h : self.addressMode4B <;> simp
  · simp [isWriteInProgress_ram, millis]

theorem sim_pollReturns (self : SpiFlash) (clock : Nat → Nat) (fuel timeout : Nat) :
    PollReturns (flashSim self clock) self (fuel + 1) timeout := by
  intro w
  obtain ⟨w', h, -, -⟩ := sim_poll self clock fuel timeout w
  exact ⟨w', h⟩

theorem sim_writeEnable_mem (self : SpiFlash) (clock : Nat → Nat) (w : World FlashChip) :
    (writeEnable (flashSim self clock) self w).dev = { mem := w.dev.mem, frame := [] } := by
  rw [writeEnable_dev, sim_exchangeAll_dev, flashSim_select, flashSim_deselect]
  rw [simCommit_other]
  unfold pageProgramInst
  cases h : self.addressMode4B <;> simp

theorem sim_programChunk (self : SpiFlash) (clock : Nat → Nat) (addr cur count : Nat)
    (w : World FlashChip) (haddr : addr < addrSpace self)
    (hfit : addr % self.pageSize + count ≤ self.pageSize) :
    (programChunk (flashSim self clock) self addr cur count w).ram = w.ram
    ∧ ∀ x, (programChunk (flashSim self clock) self addr cur count w).dev.mem x
        = if addr ≤ x ∧ x < addr + count then w.ram (cur + (x - addr)) else w.dev.mem x := by
  have hram : (programChunk (flashSim self clock) self addr cur count w).ram = w.ram := by
    simp [programChunk, endTransaction, spiTransfer, beginTransaction_ram, writeEnable_ram]
  refine ⟨hram, ?_⟩
  have hdev : (programChunk (flashSim self clock) self addr cur count w).dev
      = simCommit self
          { mem := w.dev.mem,
            frame := addrFrame self (pageProgramInst self) addr
              ++ (ramBytes w.ram cur count).map some } := by
    simp only [programChunk, endTransaction, spiTransfer, beginTransaction_dev, beginTransaction_ram,
      writeEnable_ram, sim_writeEnable_mem, sim_exchangeAll_dev, flashSim_select, flashSim_deselect,
      List.nil_append, addrFrame, pageProgramInst, txBytes]
    have hpay : List.take count (List.map some (ramBytes w.ram cur count))
        = List.map some (ramBytes w.ram cur count) :=
      List.take_of_length_le (by simp [ramBytes_length])
    rw [hpay]
  intro x
  rw [hdev]
  unfold simCommit
  have hhead : (addrFrame self (pageProgramInst self) addr
      ++ (ramBytes w.ram cur count).map some).head? = some (some (pageProgramInst self)) := by
    rw [List.head?_append_of_ne_nil _ (by
      intro h; have := addrFrame_length self (pageProgramInst self) addr
      rw [h] at this; unfold headerLen at this; simp at this; split at this <;> omega)]
    exact addrFrame_head self _ addr
  have hlen : headerLen self ≤ (addrFrame self (pageProgramInst self) addr
      ++ (ramBytes w.ram cur count).map some).length := by
    rw [List.length_append, addrFrame_length]; omega
  simp only [hhead, hlen, and_self, if_true]
  have htake : List.take (headerLen self) (addrFrame self (pageProgramInst self) addr
      ++ (ramBytes w.ram cur count).map some) = addrFrame self (pageProgramInst self) addr := by
    rw [List.take_append_of_le_length (by rw [addrFrame_length]),
      List.take_of_length_le (by rw [addrFrame_length])]
  have hdrop : List.drop (headerLen self) (addrFrame self (pageProgramInst self) addr
      ++ (ramBytes w.ram cur count).map some) = (ramBytes w.ram cur count).map some := by
    rw [List.drop_append_of_le_length (by rw [addrFrame_length]),
      List.drop_of_length_le (by rw [addrFrame_length])]
    simp
  rw [htake, hdrop, decode_addrFrame, Nat.mod_eq_of_lt haddr,
    programPage_noWrap _ _ _ _ _ (by simpa [ramBytes_length] using hfit)]
  have hbase : addr - addr % self.pageSize + addr % self.pageSize = addr :=
    Nat.sub_add_cancel (Nat.mod_le _ _)
  rw [hbase]
  simp only [List.length_map, ramBytes_length]
  by_cases hx : addr ≤ x ∧ x < addr + count
  · rw [if_pos hx, if_pos hx]
    have hi : x - addr < count := by omega
    simp [ramBytes, List.getD_eq_getElem?_getD, hi]
  · rw [if_neg hx, if_neg hx]

theorem txBytes_header (self : SpiFlash) (inst : Byte) (addr : Nat) :
    txBytes (some (setInstWithAddr self inst addr txBuf5)) (if self.addressMode4B then 5 else 4)
      = addrFrame self inst addr := rfl

theorem txBytes_null (n : Nat) : txBytes none n = List.replicate n none := rfl

theorem ite_readInst (self : SpiFlash) :
    (if self.addressMode4B then (0x13 : Byte) else 0x03) = readInst self := rfl

theorem sim_readChunk (self : SpiFlash) (clock : Nat → Nat) (addr cur bufLen : Nat)
    (w : World FlashChip) (haddr : addr < addrSpace self) :
    (readChunk (flashSim self clock) self addr cur bufLen w).dev.mem = w.dev.mem
    ∧ ∀ x, (readChunk (flashSim self clock) self addr cur bufLen w).ram x
        = if cur ≤ x ∧ x < cur + bufLen then w.dev.mem (addr + (x - cur)) else w.ram x := by
  have hne : readInst self ≠ pageProgramInst self := by
    unfold readInst pageProgramInst
    cases h : self.addressMode4B <;> simp
  have hhead : (addrFrame self (readInst self) addr ++ List.replicate bufLen none).head?
      = some (some (readInst self)) := by
    rw [List.head?_append_of_ne_nil _ (by
      intro h; have := addrFrame_length self (readInst self) addr
      rw [h] at this; unfold headerLen at this; simp at this; split at this <;> omega)]
    exact addrFrame_head self _ addr
  constructor
  · simp only [readChunk, endTransaction, spiTransfer, beginTransaction_dev, sim_exchangeAll_dev,
      flashSim_select, flashSim_deselect, List.nil_append, txBytes_header, txBytes_null,
      ite_readInst]
    rw [simCommit_other]
    rw [hhead]
    simpa using hne
  · intro x
    have hram : (readChunk (flashSim self clock) self addr cur bufLen w).ram
        = storeBytes w.ram cur (exchangeAll (flashSim self clock)
            { mem := w.dev.mem, frame := addrFrame self (readInst self) addr }
            (List.replicate bufLen none)).2 := by
      simp only [readChunk, endTransaction, spiTransfer, beginTransaction_dev, beginTransaction_ram,
        sim_exchangeAll_dev, flashSim_select, List.nil_append, txBytes_header, txBytes_null,
        ite_readInst]
    rw [hram]
    unfold storeBytes
    rw [exchangeAll_length, List.length_replicate]
    by_cases hx : cur ≤ x ∧ x < cur + bufLen
    · rw [if_pos hx, if_pos hx, sim_exchangeAll_out _ _ _ _ _ (by simp; omega)]
      unfold simOut
      have hhead2 : (addrFrame self (readInst self) addr
          ++ List.take (x - cur) (List.replicate bufLen none)).head?
          = some (some (readInst self)) := by
        rw [List.head?_append_of_ne_nil _ (by
          intro h; have := addrFrame_length self (readInst self) addr
          rw [h] at this; unfold headerLen at this; simp at this; split at this <;> omega)]
        exact addrFrame_head self _ addr
      have hlen2 : (addrFrame self (readInst self) addr
          ++ List.take (x - cur) (List.replicate bufLen none)).length
          = headerLen self + (x - cur) := by
        rw [List.length_append, addrFrame_length, List.length_take, List.length_replicate]; omega
      have hlen : headerLen self ≤ (addrFrame self (readInst self) addr
          ++ List.take (x - cur) (List.replicate bufLen none)).length := by
        rw [hlen2]; omega
      have htake : List.take (headerLen self) (addrFrame self (readInst self) addr
          ++ List.take (x - cur) (List.replicate bufLen none))
          = addrFrame self (readInst self) addr := by
        rw [List.take_append_of_le_length (by rw [addrFrame_length]),
          List.take_of_length_le (by rw [addrFrame_length])]
      simp only [hhead2, hlen, and_self, if_true, htake, decode_addrFrame,
        Nat.mod_eq_of_lt haddr]
      rw [hlen2]
      congr 1
      omega
    · rw [if_neg hx, if_neg hx]

theorem sim_writeLoop (self : SpiFlash) (clock : Nat → Nat) (pollFuel : Nat)
    (hps : 0 < self.pageSize) (hW : self.pageSize < wordSize) :
    ∀ (fuel addr cur bufLen : Nat) (w : World FlashChip), bufLen ≤ fuel → bufLen < wordSize →
      addr + bufLen ≤ addrSpace self →
      ∃ w', writeLoop (flashSim self clock) self (pollFuel + 1) fuel addr cur bufLen w = some w'
        ∧ w'.ram = w.ram
        ∧ ∀ x, w'.dev.mem x
            = if addr ≤ x ∧ x < addr + bufLen then w.ram (cur + (x - addr)) else w.dev.mem x := by
  intro fuel
  induction fuel with
  | zero =>
    intro addr cur bufLen w hle _ _
    have : bufLen = 0 := by omega
    subst this
    exact ⟨w, by simp [writeLoop], rfl, fun x => by rw [if_neg (by omega)]⟩
  | succ n ih =>
    intro addr cur bufLen w hle hlt hsp
    have hspW : addrSpace self ≤ wordSize := by
      unfold addrSpace wordSize; split <;> omega
    by_cases hb : bufLen > 0
    · have hoff : addr % self.pageSize < self.pageSize := Nat.mod_lt _ hps
      have hcc := chunkCount_eq self.pageSize addr bufLen hps hW
      generalize hcd : chunkCount self.pageSize addr bufLen = c at hcc
      have hc1 : 1 ≤ c := by omega
      have hc2 : c ≤ bufLen := by omega
      obtain ⟨hpram, hpmem⟩ := sim_programChunk self clock addr cur c w (by omega) (by omega)
      obtain ⟨w6, hw6, hw6mem, hw6ram⟩ := sim_poll self clock pollFuel self.pageProgramTimeoutMs
        (programChunk (flashSim self clock) self addr cur c w)
      have hsub : subU bufLen c = bufLen - c := subU_of_le _ _ hlt hc2
      by_cases hlast : bufLen - c = 0
      · obtain ⟨w', hrun, hram, hmem⟩ := ih (addU addr c) (cur + c) 0 w6 (by omega)
          (by unfold wordSize; omega) (by unfold addU wordSize at *; omega)
        refine ⟨w', ?_, ?_, ?_⟩
        · rw [writeLoop_step _ _ _ _ _ _ _ _ hb (by omega), hcd, hw6, hsub, hlast]; exact hrun
        · rw [hram, hw6ram, hpram]
        · intro x
          rw [hmem x, if_neg (by omega), hw6mem, hpmem x]
          have : c = bufLen := by omega
          rw [this]
      · have hadd : addU addr c = addr + c := by unfold addU wordSize at *; omega
        obtain ⟨w', hrun, hram, hmem⟩ := ih (addr + c) (cur + c) (bufLen - c) w6 (by omega)
          (by omega) (by omega)
        refine ⟨w', ?_, ?_, ?_⟩
        · rw [writeLoop_step _ _ _ _ _ _ _ _ hb (by omega), hcd, hw6, hsub, hadd]; exact hrun
        · rw [hram, hw6ram, hpram]
        · intro x
          rw [hmem x, hw6mem, hpmem x, hw6ram, hpram]
          by_cases h1 : addr + c ≤ x ∧ x < addr + c + (bufLen - c)
          · rw [if_pos h1, if_pos (by omega)]
            congr 1; omega
          · rw [if_neg h1]
            by_cases h2 : addr ≤ x ∧ x < addr + c
            · rw [if_pos h2, if_pos (by omega)]
            · rw [if_neg h2, if_neg (by omega)]
    · have : bufLen = 0 := by omega
      subst this
      exact ⟨w, by simp [writeLoop], rfl, fun x => by rw [if_neg (by omega)]⟩

theorem sim_readLoop (self : SpiFlash) (clock : Nat → Nat)
    (hps : 0 < self.pageSize) (hW : self.pageSize < wordSize) :
    ∀ (fuel addr cur bufLen : Nat) (w : World FlashChip), bufLen ≤ fuel → bufLen < wordSize →
      addr + bufLen ≤ addrSpace self →
      ∃ w', readLoop (flashSim self clock) self fuel addr cur bufLen w = some w'
        ∧ w'.dev.mem = w.dev.mem
        ∧ ∀ x, w'.ram x
            = if cur ≤ x ∧ x < cur + bufLen then w.dev.mem (addr + (x - cur)) else w.ram x := by
  intro fuel
  induction fuel with
  | zero =>
    intro addr cur bufLen w hle _ _
    have : bufLen = 0 := by omega
    subst this
    exact ⟨w, by simp [readLoop], rfl, fun x => by rw [if_neg (by omega)]⟩
  | succ n ih =>
    intro addr cur bufLen w hle hlt hsp
    have hspW : addrSpace self ≤ wordSize := by
      unfold addrSpace wordSize; split <;> omega
    by_cases hb : bufLen > 0
    · have hoff : addr % self.pageSize < self.pageSize := Nat.mod_lt _ hps
      have hcc := chunkCount_eq self.pageSize addr bufLen hps hW
      generalize hcd : chunkCount self.pageSize addr bufLen = c at hcc
      have hc1 : 1 ≤ c := by omega
      have hc2 : c ≤ bufLen := by omega
      obtain ⟨hrmem, hrram⟩ := sim_readChunk self clock addr cur bufLen w (by omega)
      have hsub : subU bufLen c = bufLen - c := subU_of_le _ _ hlt hc2
      by_cases hlast : bufLen - c = 0
      · obtain ⟨w', hrun, hmem, hram⟩ := ih (addU addr c) (cur + c) 0
          (readChunk (flashSim self clock) self addr cur bufLen w) (by omega)
          (by unfold wordSize; omega) (by unfold addU wordSize at *; omega)
        refine ⟨w', ?_, ?_, ?_⟩
        · rw [readLoop_step _ _ _ _ _ _ _ hb (by omega), hcd, hsub, hlast]; exact hrun
        · rw [hmem, hrmem]
        · intro x
          rw [hram x, if_neg (by omega), hrram x]
      · have hadd : addU addr c = addr + c := by unfold addU wordSize at *; omega
        obtain ⟨w', hrun, hmem, hram⟩ := ih (addr + c) (cur + c) (bufLen - c)
          (readChunk (flashSim self clock) self addr cur bufLen w) (by omega) (by omega) (by omega)
        refine ⟨w', ?_, ?_, ?_⟩
        · rw [readLoop_step _ _ _ _ _ _ _ hb (by omega), hcd, hsub, hadd]; exact hrun
        · rw [hmem, hrmem]
        · intro x
          rw [hram x, hrmem, hrram x]
          by_cases h1 : cur + c ≤ x ∧ x < cur + c + (bufLen - c)
          · rw [if_pos h1, if_pos (by omega)]
            congr 1; omega
          · rw [if_neg h1]
    · have : bufLen = 0 := by omega
      subst this
      exact ⟨w, by simp [readLoop], rfl, fun x => by rw [if_neg (by omega)]⟩

/-! ## Identification (C5) -/

theorem jedec_value (a b c : Byte) :
    (a.val <<< 16) ||| (b.val <<< 8) ||| c.val = a.val * 65536 + b.val * 256 + c.val := by
  have ha := a.isLt
  have hb := b.isLt
  have hc := c.isLt
  have h1 : a.val <<< 16 ||| b.val <<< 8 = 2 ^ 16 * a.val + 2 ^ 8 * b.val := by
    rw [Nat.shiftLeft_eq, Nat.shiftLeft_eq, Nat.mul_comm a.val, Nat.mul_comm b.val]
    exact (Nat.mul_add_lt_is_or (by omega) a.val).symm
  have h2 : 2 ^ 16 * a.val + 2 ^ 8 * b.val = 2 ^ 8 * (2 ^ 8 * a.val + b.val) := by omega
  rw [h1, h2, ← Nat.mul_add_lt_is_or (by omega : c.val < 2 ^ 8)]
  omega

/-- C5: `jedecIdRead` sends the identify command 0x9F and returns the 24-bit value
`(rx[1] << 16) | (rx[2] << 8) | rx[3]` of the 4-byte response, discarding `rx[0]`;
`isValid` is true exactly when `rx[1]` equals the configured manufacturer identifier, so
an all-0xFF response is rejected whenever that identifier is not 0xFF. -/
theorem jedecIdRead_isValid {δ : Type} (env : Env δ) (self : SpiFlash) (w : World δ) :
    (jedecIdRead env self w).1.log
        = w.log ++ txnEvents self
            [Event.transfer [some 0x9f, none, none, none] (some (identifyResponse env w.dev))]
    ∧ (identifyResponse env w.dev).length = 4
    ∧ (jedecIdRead env self w).2
        = (((identifyResponse env w.dev).getD 1 0).val <<< 16)
          ||| (((identifyResponse env w.dev).getD 2 0).val <<< 8)
          ||| ((identifyResponse env w.dev).getD 3 0).val
    ∧ (jedecIdRead env self w).2
        = ((identifyResponse env w.dev).getD 1 0).val * 65536
          + ((identifyResponse env w.dev).getD 2 0).val * 256
          + ((identifyResponse env w.dev).getD 3 0).val
    ∧ ((isValid env self w).2 = true
        ↔ ((identifyResponse env w.dev).getD 1 0).val = self.manufacturerId)
    ∧ (identifyResponse env w.dev = [0xFF, 0xFF, 0xFF, 0xFF] → self.manufacturerId ≠ 0xFF →
        (isValid env self w).2 = false) := by
  have hval : (jedecIdRead env self w).2
      = (((identifyResponse env w.dev).getD 1 0).val <<< 16)
        ||| (((identifyResponse env w.dev).getD 2 0).val <<< 8)
        ||| ((identifyResponse env w.dev).getD 3 0).val := by
    simp [jedecIdRead, spiTransfer, beginTransaction_dev, identifyResponse, txBytes]
  have hvalid : ((isValid env self w).2 = true
      ↔ ((identifyResponse env w.dev).getD 1 0).val = self.manufacturerId) := by
    unfold isValid
    simp only [hval, jedec_value, decide_eq_true_eq, toU8]
    have h1 := ((identifyResponse env w.dev).getD 1 0).isLt
    have h2 := ((identifyResponse env w.dev).getD 2 0).isLt
    have h3 := ((identifyResponse env w.dev).getD 3 0).isLt
    have hand : ∀ n : Nat, n &&& 0xff = n % 256 := fun n => Nat.and_pow_two_sub_one_eq_mod n 8
    rw [hand, Nat.shiftRight_eq_div_pow]
    constructor <;> intro h <;> omega
  refine ⟨?_, ?_, hval, ?_, hvalid, ?_⟩
  · simp [jedecIdRead, endTransaction, spiTransfer, beginTransaction_log, beginTransaction_dev,
      identifyResponse, txnEvents, txBytes]
  · simp [identifyResponse, exchangeAll_length]
  · rw [hval, jedec_value]
  · intro hresp hid
    rw [Bool.eq_false_iff]
    intro hv
    rw [hvalid, hresp] at hv
    exact hid hv.symm

/-! ## Write-completion timeout (C7) -/

theorem waitLoop_returns {δ : Type} (env : Env δ) (self : SpiFlash) (startTime timeout : Nat) :
    ∀ (m fuel : Nat) (w : World δ), m < fuel →
      timeout ≤ subU (env.clock (w.ticks + m) % wordSize) startTime →
      ∃ w', waitLoop env self startTime timeout fuel w = some w' := by
  intro m
  induction m with
  | zero =>
    intro fuel w hf hm
    obtain ⟨f, rfl⟩ : ∃ f, fuel = f + 1 := ⟨fuel - 1, by omega⟩
    have ht : ¬ subU (env.clock w.ticks % wordSize) startTime < timeout := by simpa using hm
    have ht2 : ¬ subU (millis env (isWriteInProgress env self w).1).2 startTime < timeout := by
      simpa [millis, isWriteInProgress_ticks] using ht
    rw [waitLoop]
    by_cases hw : (isWriteInProgress env self w).2 = true
    · rw [if_pos hw, if_neg ht2]; exact ⟨_, rfl⟩
    · rw [if_neg hw]; exact ⟨_, rfl⟩
  | succ m ih =>
    intro fuel w hf hm
    obtain ⟨f, rfl⟩ : ∃ f, fuel = f + 1 := ⟨fuel - 1, by omega⟩
    rw [waitLoop]
    by_cases hw : (isWriteInProgress env self w).2 = true
    · by_cases ht : subU (millis env (isWriteInProgress env self w).1).2 startTime < timeout
      · simp only [hw, if_true, ht]
        apply ih f _ (by omega)
        have : (if timeout > 500 then emit (Event.delay 1) (millis env (isWriteInProgress env self w).1).1
            else (millis env (isWriteInProgress env self w).1).1).ticks = w.ticks + 1 := by
          by_cases h5 : timeout > 500 <;> simp [h5, emit, millis, isWriteInProgress_ticks]
        rw [this, show w.ticks + 1 + m = w.ticks + (m + 1) by omega]
        exact hm
      · rw [if_pos hw, if_neg ht]; exact ⟨_, rfl⟩
    · rw [if_neg hw]; exact ⟨_, rfl⟩

theorem pollReturns_of_clock {δ : Type} (env : Env δ) (self : SpiFlash) (fuel timeout : Nat)
    (hclock : ∀ i, ∃ j, j < fuel ∧ effectiveTimeout self timeout
      ≤ subU (env.clock (i + 1 + j) % wordSize) (env.clock i % wordSize)) :
    PollReturns env self fuel timeout := by
  intro w
  obtain ⟨j, hj, hle⟩ := hclock w.ticks
  unfold waitForWriteComplete
  exact waitLoop_returns env self _ _ j fuel _ hj (by simpa [millis, effectiveTimeout] using hle)

/-- C7: `waitForWriteComplete(timeout)` against a device whose WIP bit never clears
returns as soon as a reading of the millisecond clock shows the effective timeout (the
argument, or `waitWriteCompletionTimeoutMs` when the argument is 0) elapsed: with the
clock reaching it at the `k`-th reading after the start, the call returns after `n ≤ k`
status reads, the `n`-th reading being the first with `millis() - startTime ≥` the
effective timeout, so the loop body was entered `n - 1` times, each time with less than the
timeout elapsed.  And when the first status read shows WIP clear, the call returns after
exactly that one status read. -/
theorem waitForWriteComplete_bounded {δ : Type} (env : Env δ) (self : SpiFlash)
    (timeout fuel : Nat) (w : World δ) :
    (∀ k, (∀ d, wipOf (statusResponse env d) = true) → 1 ≤ k → k ≤ fuel →
      effectiveTimeout self timeout
        ≤ subU (env.clock (w.ticks + k) % wordSize) (env.clock w.ticks % wordSize) →
      ∃ w' n es, waitForWriteComplete env self fuel timeout w = some w'
        ∧ 1 ≤ n ∧ n ≤ k
        ∧ w'.ticks = w.ticks + n + 1
        ∧ effectiveTimeout self timeout
            ≤ subU (env.clock (w.ticks + n) % wordSize) (env.clock w.ticks % wordSize)
        ∧ (∀ i, 1 ≤ i → i < n →
            subU (env.clock (w.ticks + i) % wordSize) (env.clock w.ticks % wordSize)
              < effectiveTimeout self timeout)
        ∧ w'.log = w.log ++ es
        ∧ IsPoll self timeout es
        ∧ es.countP isStatusRead = n
        ∧ es.countP isYield = (if effectiveTimeout self timeout > 500 then n - 1 else 0))
    ∧ (wipOf (statusResponse env w.dev) = false → 1 ≤ fuel →
      ∃ w', waitForWriteComplete env self fuel timeout w = some w'
        ∧ w'.log = w.log ++ Event.millis (env.clock w.ticks % wordSize)
            :: statusEvents self (statusResponse env w.dev)
        ∧ w'.ticks = w.ticks + 1) := by
  constructor
  · intro k hbusy hk hfuel hclock
    obtain ⟨w', n, es, hrun, hn, hticks, hexp, hbelow, hlog, htr, hcs, hcy⟩ :=
      waitLoop_busy env self (env.clock w.ticks % wordSize) (effectiveTimeout self timeout) hbusy
        (k - 1) fuel (millis env w).1 (by omega)
        (by simpa [millis, show w.ticks + 1 + (k - 1) = w.ticks + k by omega] using hclock)
    have ht0 : (millis env w).1.ticks = w.ticks + 1 := by simp [millis]
    rw [ht0] at hticks hexp hbelow
    refine ⟨w', n + 1, Event.millis (env.clock w.ticks % wordSize) :: es, ?_, by omega, by omega,
      by omega, ?_, ?_, ?_, ⟨_, es, rfl, htr⟩, ?_, ?_⟩
    · unfold waitForWriteComplete
      simpa [millis, effectiveTimeout] using hrun
    · rw [show w.ticks + (n + 1) = w.ticks + 1 + n by omega]; exact hexp
    · intro i hi1 hi2
      have := hbelow (i - 1) (by omega)
      rw [show w.ticks + 1 + (i - 1) = w.ticks + i by omega] at this
      exact this
    · rw [hlog]; simp [millis]
    · simp [List.countP_cons, isStatusRead, hcs]
    · simp [List.countP_cons, isYield, hcy]
  · intro hidle hfuel
    obtain ⟨f, rfl⟩ : ∃ f, fuel = f + 1 := ⟨fuel - 1, by omega⟩
    refine ⟨_, waitForWriteComplete_idle env self f timeout w hidle, ?_, ?_⟩
    · simp [isWriteInProgress_log, millis]
    · simp [isWriteInProgress_ticks, millis]

/-- C7 at concrete inputs: a stuck-busy device with a 3 ms timeout and a clock that
advances 1 ms per reading, and the simulated (never busy) chip. -/
theorem waitForWriteComplete_bounded_example :
    (∃ w', waitForWriteComplete stuckEnv exampleFlash 3 3 stuckWorld = some w' ∧ w'.ticks ≤ 4)
    ∧ (∃ w', waitForWriteComplete (flashSim exampleFlash tickClock) exampleFlash 1 0 simWorld
          = some w' ∧ w'.ticks = 1) := by
  constructor
  · obtain ⟨w', n, es, hrun, -, hn, hticks, -⟩ :=
      (waitForWriteComplete_bounded stuckEnv exampleFlash 3 3 stuckWorld).1 3
        (fun d => by cases d; decide) (by decide) (by decide) (by decide)
    exact ⟨w', hrun, by rw [hticks]; simp [stuckWorld]; omega⟩
  · obtain ⟨w', hrun, -, hticks⟩ :=
      (waitForWriteComplete_bounded (flashSim exampleFlash tickClock) exampleFlash 0 1 simWorld).2
        (sim_status_idle _ _ _) (by decide)
    exact ⟨w', hrun, by rw [hticks]; rfl⟩

/-! ## Erase sequences (C6) -/

/-- C10: the bus activity of `writeData` is one wait for write completion with the
default timeout, followed, for every chunk of the paging loop in order, by a write-enable
transaction (0x06), immediately after it the page-program transaction (0x02, or 0x12 in
4-byte mode) whose payload is exactly that chunk's bytes of the source buffer, and then a
completion poll `waitForWriteComplete(pageProgramTimeoutMs)` before the next chunk's
write-enable (`WriteTrace`).  The source buffer is not modified.  The completion polls
are assumed to return. -/
theorem writeData_sequence {δ : Type} (env : Env δ) (self : SpiFlash) (pollFuel : Nat)
    (addr buf bufLen : Nat) (w : World δ)
    (hps : 0 < self.pageSize) (hW : self.pageSize < wordSize) (hlen : bufLen < wordSize)
    (hpoll0 : PollReturns env self pollFuel defaultTimeout)
    (hpoll : PollReturns env self pollFuel self.pageProgramTimeoutMs) :
    ∃ w' p0 body, writeData env self pollFuel addr buf bufLen w = some w'
      ∧ w'.ram = w.ram ∧ w'.log = w.log ++ (p0 ++ body)
      ∧ IsPoll self defaultTimeout p0
      ∧ WriteTrace self w.ram buf (pageChunks self.pageSize bufLen addr bufLen) body :=
  writeData_trace env self pollFuel addr buf bufLen w hps hW hlen hpoll0 hpoll

/-- C10 at a concrete input: 300 bytes written at address 100 of the simulated chip. -/
theorem writeData_sequence_example :
    ∃ w' p0 body, writeData (flashSim exampleFlash tickClock) exampleFlash 1 100 0 300 simWorld
        = some w'
      ∧ w'.ram = simWorld.ram ∧ w'.log = simWorld.log ++ (p0 ++ body)
      ∧ IsPoll exampleFlash defaultTimeout p0
      ∧ WriteTrace exampleFlash simWorld.ram 0 (pageChunks exampleFlash.pageSize 300 100 300) body :=
  writeData_sequence (flashSim exampleFlash tickClock) exampleFlash 1 100 0 300 simWorld
    (by decide) (by decide) (by decide) (sim_pollReturns _ _ 0 _) (sim_pollReturns _ _ 0 _)

theorem pageChunks_geometry (pageSize addr bufLen : Nat) (hps : 0 < pageSize)
    (hW : pageSize < wordSize) (hlen : bufLen < wordSize) (hsum : addr + bufLen ≤ wordSize) :
    ((pageChunks pageSize bufLen addr bufLen).map Prod.snd).sum = bufLen
    ∧ (∀ c ∈ pageChunks pageSize bufLen addr bufLen,
        1 ≤ c.2 ∧ c.1 / pageSize = (c.1 + c.2 - 1) / pageSize)
    ∧ (∀ (i : Nat) (c : Nat × Nat), (pageChunks pageSize bufLen addr bufLen)[i]? = some c →
        c.1 = addr + (((pageChunks pageSize bufLen addr bufLen).take i).map Prod.snd).sum) := by
  rw [pageChunks_eq_splitPages pageSize hps hW bufLen addr bufLen (le_refl _) hsum hlen]
  exact splitPages_geometry pageSize hps bufLen addr bufLen (le_refl _)

theorem writeData_programFrames {δ : Type} (env : Env δ) (self : SpiFlash) (pollFuel : Nat)
    (addr buf bufLen : Nat) (w : World δ)
    (hps : 0 < self.pageSize) (hW : self.pageSize < wordSize) (hlen : bufLen < wordSize)
    (hpoll0 : PollReturns env self pollFuel defaultTimeout)
    (hpoll : PollReturns env self pollFuel self.pageProgramTimeoutMs) :
    ∃ w' es, writeData env self pollFuel addr buf bufLen w = some w'
      ∧ w'.log = w.log ++ es
      ∧ programFrames self es
          = chunkFrames self w.ram buf (pageChunks self.pageSize bufLen addr bufLen) := by
  obtain ⟨w', p0, body, hrun, -, hlog, hp0, htr⟩ :=
    writeData_trace env self pollFuel addr buf bufLen w hps hW hlen hpoll0 hpoll
  refine ⟨w', p0 ++ body, hrun, hlog, ?_⟩
  obtain ⟨n, hn⟩ := mosiFrames_poll self defaultTimeout p0 hp0 body
  have hb := programFrames_writeTrace self w.ram buf _ body htr []
  simp only [List.append_nil] at hb
  unfold programFrames
  rw [hn, filter_status_frames, hb]
  simp [mosiFrames]

/-- C1: for a page size > 0 and a request that does not run past the end of the 32-bit
address range, `writeData` returns (its paging loop within `bufLen` iterations, given that
each completion poll returns), and the page-program frames it puts on the bus are, in
order, those of the chunks `(start, count)` of the paging loop,
`pageChunks pageSize bufLen addr bufLen`: header for `start` followed by `count` bytes
taken from the source at the running cursor.  The counts sum to
the length, every count is at least 1, every chunk starts where the previous one ended
(the first at `addr`), so the chunks tile `[addr, addr + bufLen)` without gap or overlap,
and no chunk crosses a page boundary. -/
theorem writeData_chunks {δ : Type} (env : Env δ) (self : SpiFlash) (pollFuel : Nat)
    (addr buf bufLen : Nat) (w : World δ)
    (hps : 0 < self.pageSize) (hW : self.pageSize < wordSize) (hlen : bufLen < wordSize)
    (hsum : addr + bufLen ≤ wordSize)
    (hpoll0 : PollReturns env self pollFuel defaultTimeout)
    (hpoll : PollReturns env self pollFuel self.pageProgramTimeoutMs) :
    ∃ w' es, writeData env self pollFuel addr buf bufLen w = some w'
      ∧ w'.log = w.log ++ es
      ∧ programFrames self es
          = chunkFrames self w.ram buf (pageChunks self.pageSize bufLen addr bufLen)
      ∧ ((pageChunks self.pageSize bufLen addr bufLen).map Prod.snd).sum = bufLen
      ∧ (∀ c ∈ pageChunks self.pageSize bufLen addr bufLen,
          1 ≤ c.2 ∧ c.1 / self.pageSize = (c.1 + c.2 - 1) / self.pageSize)
      ∧ (∀ (i : Nat) (c : Nat × Nat),
          (pageChunks self.pageSize bufLen addr bufLen)[i]? = some c →
          c.1 = addr + (((pageChunks self.pageSize bufLen addr bufLen).take i).map Prod.snd).sum) := by
  obtain ⟨w', es, hrun, hlog, hframes⟩ :=
    writeData_programFrames env self pollFuel addr buf bufLen w hps hW hlen hpoll0 hpoll
  obtain ⟨h1, h2, h3⟩ := pageChunks_geometry self.pageSize addr bufLen hps hW hlen hsum
  exact ⟨w', es, hrun, hlog, hframes, h1, h2, h3⟩

/-- C1 at a concrete input: 300 bytes at address 100 with 256-byte pages. -/
theorem writeData_chunks_example :
    (∃ w', writeData (flashSim exampleFlash tickClock) exampleFlash 1 100 0 300 simWorld = some w')
    ∧ pageChunks exampleFlash.pageSize 300 100 300 = [(100, 156), (256, 144)]
    ∧ ((pageChunks exampleFlash.pageSize 300 100 300).map Prod.snd).sum = 300 := by
  obtain ⟨w', _, hrun, _, _, hsum, _⟩ :=
    writeData_chunks (flashSim exampleFlash tickClock) exampleFlash 1 100 0 300 simWorld
      (by decide) (by decide) (by decide) (by decide)
      (sim_pollReturns _ _ 0 _) (sim_pollReturns _ _ 0 _)
  exact ⟨⟨w', hrun⟩, by decide, hsum⟩

/-! ## readData and erase frames -/

theorem mosiFrames_readTrace (self : SpiFlash) (remaining : Nat) (cs : List (Nat × Nat))
    (es : List Event) (h : ReadTrace self remaining cs es) :
    ∀ rest, mosiFrames none (es ++ rest) = readFrames self remaining cs ++ mosiFrames none rest := by
  induction h with
  | done remaining => intro rest; simp [readFrames]
  | chunk remaining addr count cs rx tl _ _ ih =>
    intro rest
    rw [List.append_assoc, mosiFrames_txn2, ih rest, readFrames]
    rfl

theorem readData_trace {δ : Type} (env : Env δ) (self : SpiFlash) (addr buf bufLen : Nat)
    (w : World δ) (hps : 0 < self.pageSize) (hW : self.pageSize < wordSize)
    (hlen : bufLen < wordSize) :
    ∃ w' es, readData env self addr buf bufLen w = some w'
      ∧ w'.log = w.log ++ es
      ∧ ReadTrace self bufLen (pageChunks self.pageSize bufLen addr bufLen) es
      ∧ mosiFrames none es = readFrames self bufLen (pageChunks self.pageSize bufLen addr bufLen)
      ∧ (∀ x, x < buf ∨ buf + bufLen ≤ x → w'.ram x = w.ram x) := by
  obtain ⟨w', es, hrun, hlog, htr, hram⟩ :=
    readLoop_trace env self hps hW bufLen addr buf bufLen w (le_refl _) hlen
  refine ⟨w', es, hrun, hlog, htr, ?_, hram⟩
  have := mosiFrames_readTrace self _ _ es htr []
  simpa [mosiFrames] using this

theorem commandFrames_erase (self : SpiFlash) (p0 p1 : List Event) (frame : List (Option Byte))
    (hp0 : IsPoll self defaultTimeout p0) (t : Nat) (hp1 : IsPoll self t p1)
    (hframe : frame ≠ [some 0x05, some 0]) :
    commandFrames (p0 ++ wrenEvents self ++ txnEvents self [Event.transfer frame none] ++ p1)
      = [[some 0x06], frame] := by
  unfold commandFrames
  obtain ⟨n1, h1⟩ := mosiFrames_poll self t p1 hp1 []
  obtain ⟨n0, h0⟩ := mosiFrames_poll self defaultTimeout p0 hp0
    (wrenEvents self ++ (txnEvents self [Event.transfer frame none] ++ (p1 ++ [])))
  have hfil : ∀ (n : Nat) (fs : List (List (Option Byte))),
      (List.replicate n [some (0x05 : Byte), some 0] ++ fs).filter (fun f => f != [some 0x05, some 0])
        = fs.filter (fun f => f != [some 0x05, some 0]) := by
    intro n fs
    induction n with
    | zero => simp
    | succ k ih => rw [List.replicate_succ, List.cons_append, List.filter_cons_of_neg (by simp), ih]
  have hshape : p0 ++ wrenEvents self ++ txnEvents self [Event.transfer frame none] ++ p1
      = p0 ++ (wrenEvents self ++ (txnEvents self [Event.transfer frame none] ++ (p1 ++ []))) := by
    simp
  rw [hshape, h0, hfil, mosiFrames_wren, mosiFrames_txn1, h1]
  have := hfil (n1 + 1) (mosiFrames none [])
  simp only [mosiFrames, List.append_nil] at this ⊢
  rw [List.filter_cons_of_pos (by decide), List.filter_cons_of_pos (by simpa using hframe), this]
  rfl

/-! ## The chunks in closed form (C2) -/

theorem pageChunks_eq_expected (pageSize addr bufLen : Nat) (hps : 0 < pageSize)
    (hW : pageSize < wordSize) (hlen : bufLen < wordSize) (hsum : addr + bufLen ≤ wordSize) :
    pageChunks pageSize bufLen addr bufLen = expectedChunks pageSize addr bufLen := by
  rw [pageChunks_eq_splitPages pageSize hps hW bufLen addr bufLen (le_refl _) hsum hlen,
    splitPages_eq_expected pageSize hps bufLen addr bufLen (le_refl _)]

/-- C2, with the request not running past the end of the 32-bit address range: the chunks
of the paging loop of `writeData` (as page-program frames) and of `readData` (as the
headers of its read transactions) are exactly `expectedChunks`: a first chunk of
`min(pageSize - addr mod pageSize, length)` bytes, which is `min(pageSize, length)` for a
page-aligned `addr` and less than `pageSize` otherwise, then one chunk of exactly
`pageSize` bytes starting on a page boundary for every intermediate page, then a final
chunk of the remaining 1..`pageSize` bytes. -/
theorem pagedLoop_chunks {δ : Type} (env : Env δ) (self : SpiFlash) (pollFuel : Nat)
    (addr src dst bufLen : Nat) (w : World δ)
    (hps : 0 < self.pageSize) (hW : self.pageSize < wordSize) (hlen : bufLen < wordSize)
    (hsum : addr + bufLen ≤ wordSize)
    (hpoll0 : PollReturns env self pollFuel defaultTimeout)
    (hpoll : PollReturns env self pollFuel self.pageProgramTimeoutMs) :
    pageChunks self.pageSize bufLen addr bufLen = expectedChunks self.pageSize addr bufLen
    ∧ (∃ w' es, writeData env self pollFuel addr src bufLen w = some w'
        ∧ w'.log = w.log ++ es
        ∧ programFrames self es
            = chunkFrames self w.ram src (expectedChunks self.pageSize addr bufLen))
    ∧ (∃ w' es, readData env self addr dst bufLen w = some w'
        ∧ w'.log = w.log ++ es
        ∧ mosiFrames none es = readFrames self bufLen (expectedChunks self.pageSize addr bufLen))
    ∧ (addr % self.pageSize = 0 →
        firstChunk self.pageSize addr bufLen = min self.pageSize bufLen)
    ∧ (addr % self.pageSize ≠ 0 → firstChunk self.pageSize addr bufLen < self.pageSize)
    ∧ (bufLen - firstChunk self.pageSize addr bufLen ≠ 0 →
        (∀ i, (addr + firstChunk self.pageSize addr bufLen + i * self.pageSize) % self.pageSize = 0)
        ∧ 1 ≤ bufLen - firstChunk self.pageSize addr bufLen
              - (bufLen - firstChunk self.pageSize addr bufLen - 1) / self.pageSize * self.pageSize
        ∧ bufLen - firstChunk self.pageSize addr bufLen
              - (bufLen - firstChunk self.pageSize addr bufLen - 1) / self.pageSize * self.pageSize
            ≤ self.pageSize) := by
  have heq := pageChunks_eq_expected self.pageSize addr bufLen hps hW hlen hsum
  have hoff : addr % self.pageSize < self.pageSize := Nat.mod_lt _ hps
  refine ⟨heq, ?_, ?_, ?_, ?_, ?_⟩
  · obtain ⟨w', es, hrun, hlog, hframes⟩ :=
      writeData_programFrames env self pollFuel addr src bufLen w hps hW hlen hpoll0 hpoll
    exact ⟨w', es, hrun, hlog, by rw [hframes, heq]⟩
  · obtain ⟨w', es, hrun, hlog, -, hframes, -⟩ := readData_trace env self addr dst bufLen w hps hW hlen
    exact ⟨w', es, hrun, hlog, by rw [hframes, heq]⟩
  · intro h; unfold firstChunk; rw [h]; rfl
  · intro h; unfold firstChunk; omega
  · intro hrest
    have hfirst : firstChunk self.pageSize addr bufLen = self.pageSize - addr % self.pageSize := by
      unfold firstChunk at hrest ⊢; omega
    have hal : (addr + firstChunk self.pageSize addr bufLen) % self.pageSize = 0 := by
      rw [hfirst]
      have hdm : self.pageSize * (addr / self.pageSize) + addr % self.pageSize = addr :=
        Nat.div_add_mod _ _
      have : addr + (self.pageSize - addr % self.pageSize)
          = self.pageSize * (addr / self.pageSize) + self.pageSize := by omega
      rw [this, Nat.add_mod_right, Nat.mul_mod_right]
    refine ⟨fun i => by rw [Nat.add_mul_mod_self_right]; exact hal, ?_⟩
    generalize bufLen - firstChunk self.pageSize addr bufLen = rest at hrest
    have h1 : self.pageSize * ((rest - 1) / self.pageSize) + (rest - 1) % self.pageSize = rest - 1 :=
      Nat.div_add_mod _ _
    have h2 : (rest - 1) % self.pageSize < self.pageSize := Nat.mod_lt _ hps
    rw [Nat.mul_comm] at h1
    omega

/-- C2 at the scenario of the specification: page size 256, 300 bytes at address 100
give exactly the two chunks (100, 156) and (256, 144). -/
theorem pagedLoop_chunks_example :
    pageChunks exampleFlash.pageSize 300 100 300 = [(100, 156), (256, 144)] :=
  (pagedLoop_chunks (flashSim exampleFlash tickClock) exampleFlash 1 100 0 1000 300 simWorld
    (by decide) (by decide) (by decide) (by decide)
    (sim_pollReturns _ _ 0 _) (sim_pollReturns _ _ 0 _)).1.trans (by decide)

/-- C2 as stated fails when the request wraps around the end of the 32-bit address range:
with a page size of 3, five bytes written at address 0xFFFFFFFF are programmed in chunks
of 3, 1 and 1 bytes, where the stated pattern gives a first chunk of 3 and a final chunk
of 2. -/
theorem pagedLoop_chunks_wraparound :
    (writeData (flashSim oddPageFlash tickClock) oddPageFlash 1 4294967295 0 5 simWorld).map
        (fun w => (programFrames oddPageFlash w.log).map (fun f => f.length - 4)) = some [3, 1, 1]
    ∧ (expectedChunks oddPageFlash.pageSize 4294967295 5).map Prod.snd = [3, 2] := by
  constructor
  · rfl
  · decide

/-! ## Command framing (C4) -/

theorem addrFrame_ne_status (self : SpiFlash) (inst : Byte) (addr : Nat) :
    addrFrame self inst addr ≠ [some 0x05, some 0] := by
  intro h
  have := addrFrame_length self inst addr
  rw [h] at this
  unfold headerLen at this
  split at this <;> simp at this

/-- C4: `setInstWithAddr` followed by the transfer of the first 4 (3-byte mode) or 5
(4-byte mode) buffer slots puts on the bus the instruction byte followed by the address in
big-endian order, `[inst, addr>>16, addr>>8, addr]` or `[inst, addr>>24, addr>>16,
addr>>8, addr]`, each truncated to 8 bits; the address bytes decode big-endian to `addr`
modulo 2^24 resp. 2^32, hence to `addr` itself below that bound.  Sector erase and block
erase transmit exactly this header as their command, every page-program frame of
`writeData` and every read frame of `readData` starts with it (the completion polls of
the erase and write operations being assumed to return). -/
theorem addressed_command_framing {δ : Type} (env : Env δ) (self : SpiFlash) (pollFuel : Nat)
    (inst : Byte) (addr buf bufLen : Nat) (w : World δ)
    (hps : 0 < self.pageSize) (hW : self.pageSize < wordSize) (hlen : bufLen < wordSize)
    (hpoll0 : PollReturns env self pollFuel defaultTimeout)
    (hpollP : PollReturns env self pollFuel self.pageProgramTimeoutMs)
    (hpollS : PollReturns env self pollFuel self.sectorEraseTimeoutMs)
    (hpollC : PollReturns env self pollFuel self.chipEraseTimeoutMs) :
    addrFrame self inst addr
        = (if self.addressMode4B then
            [some inst, some (toU8 (addr >>> 24)), some (toU8 (addr >>> 16)),
              some (toU8 (addr >>> 8)), some (toU8 addr)]
          else
            [some inst, some (toU8 (addr >>> 16)), some (toU8 (addr >>> 8)), some (toU8 addr)])
    ∧ (addrFrame self inst addr).length = (if self.addressMode4B then 5 else 4)
    ∧ decodeAddr (addrFrame self inst addr).tail = addr % addrSpace self
    ∧ (addr < addrSpace self → decodeAddr (addrFrame self inst addr).tail = addr)
    ∧ (∃ w' es, sectorErase env self pollFuel addr w = some w' ∧ w'.log = w.log ++ es
        ∧ commandFrames es
            = [[some 0x06], addrFrame self (if self.addressMode4B then 0x21 else 0x20) addr])
    ∧ (∃ w' es, blockErase env self pollFuel addr w = some w' ∧ w'.log = w.log ++ es
        ∧ commandFrames es
            = [[some 0x06], addrFrame self (if self.addressMode4B then 0xDC else 0xD8) addr])
    ∧ (∃ w' es, writeData env self pollFuel addr buf bufLen w = some w' ∧ w'.log = w.log ++ es
        ∧ programFrames self es
            = chunkFrames self w.ram buf (pageChunks self.pageSize bufLen addr bufLen))
    ∧ (∃ w' es, readData env self addr buf bufLen w = some w' ∧ w'.log = w.log ++ es
        ∧ mosiFrames none es
            = readFrames self bufLen (pageChunks self.pageSize bufLen addr bufLen)) := by
  refine ⟨addrFrame_eq self inst addr, addrFrame_length self inst addr,
    decode_addrFrame self inst addr, ?_, ?_, ?_, ?_, ?_⟩
  · intro h; rw [decode_addrFrame, Nat.mod_eq_of_lt h]
  · obtain ⟨w', p0, p1, hrun, hlog, hp0, hp1⟩ := sectorErase_trace env self pollFuel addr w hpoll0 hpollS
    exact ⟨w', _, hrun, hlog,
      commandFrames_erase self p0 p1 _ hp0 _ hp1 (addrFrame_ne_status self _ addr)⟩
  · obtain ⟨w', p0, p1, hrun, hlog, hp0, hp1⟩ := blockErase_trace env self pollFuel addr w hpoll0 hpollC
    exact ⟨w', _, hrun, hlog,
      commandFrames_erase self p0 p1 _ hp0 _ hp1 (addrFrame_ne_status self _ addr)⟩
  · exact writeData_programFrames env self pollFuel addr buf bufLen w hps hW hlen hpoll0 hpollP
  · obtain ⟨w', es, hrun, hlog, -, hframes, -⟩ := readData_trace env self addr buf bufLen w hps hW hlen
    exact ⟨w', es, hrun, hlog, hframes⟩

/-- C4 at concrete inputs: the sector-erase header for address 0x123456 in 3-byte mode. -/
theorem addressed_command_framing_example :
    addrFrame exampleFlash 0x20 0x123456 = [some 0x20, some 0x12, some 0x34, some 0x56]
    ∧ decodeAddr (addrFrame exampleFlash 0x20 0x123456).tail = 0x123456 := by
  obtain ⟨h1, -, -, h4, -⟩ :=
    addressed_command_framing (flashSim exampleFlash tickClock) exampleFlash 1 0x20 0x123456 0 16
      simWorld (by decide) (by decide) (by decide) (sim_pollReturns _ _ 0 _)
      (sim_pollReturns _ _ 0 _) (sim_pollReturns _ _ 0 _) (sim_pollReturns _ _ 0 _)
  exact ⟨h1.trans (by decide), h4 (by decide)⟩

/-! ## Zero-length requests (C8) -/

/-- C8, amended: `readData` with `bufLen = 0` does nothing at all (no event on the bus,
chip and RAM unchanged).  `writeData` with `bufLen = 0` is exactly its initial
`waitForWriteComplete()`: it issues read-status transactions only (at least one), no
write-enable and no page-program, and leaves RAM unchanged; against the simulated chip it
returns with the chip contents unchanged. -/
theorem zero_length_requests {δ : Type} (env : Env δ) (self : SpiFlash) (pollFuel : Nat)
    (addr buf : Nat) (w : World δ) (clock : Nat → Nat) (ws : World FlashChip) :
    readData env self addr buf 0 w = some w
    ∧ writeData env self pollFuel addr buf 0 w = waitForWriteComplete env self pollFuel defaultTimeout w
    ∧ (∀ w', writeData env self pollFuel addr buf 0 w = some w' →
        ∃ es n, w'.log = w.log ++ es ∧ IsPoll self defaultTimeout es
          ∧ mosiFrames none es = List.replicate (n + 1) [some 0x05, some 0]
          ∧ w'.ram = w.ram)
    ∧ (∃ w', writeData (flashSim self clock) self (pollFuel + 1) addr buf 0 ws = some w'
        ∧ w'.dev.mem = ws.dev.mem ∧ w'.ram = ws.ram) := by
  have hw : writeData env self pollFuel addr buf 0 w = waitForWriteComplete env self pollFuel defaultTimeout w := by
    unfold writeData
    cases waitForWriteComplete env self pollFuel defaultTimeout w <;> simp [writeLoop]
  have hws : writeData (flashSim self clock) self (pollFuel + 1) addr buf 0 ws
      = waitForWriteComplete (flashSim self clock) self (pollFuel + 1) defaultTimeout ws := by
    unfold writeData
    cases waitForWriteComplete (flashSim self clock) self (pollFuel + 1) defaultTimeout ws <;> simp [writeLoop]
  refine ⟨by simp [readData, readLoop], hw, ?_, ?_⟩
  · intro w' h
    rw [hw] at h
    obtain ⟨es, hlog, hp, hram⟩ := waitForWriteComplete_trace env self _ _ _ _ h
    obtain ⟨n, hn⟩ := mosiFrames_poll self defaultTimeout es hp []
    exact ⟨es, n, hlog, hp, by simpa [mosiFrames] using hn, hram⟩
  · rw [hws]
    exact sim_poll self clock pollFuel defaultTimeout ws

/-- C8 as stated fails for `writeData`: a zero-length write to the simulated chip asserts
chip-select and transfers a read-status command. -/
theorem writeData_zero_length_polls :
    (writeData (flashSim exampleFlash tickClock) exampleFlash 1 0 0 0 simWorld).map
        (fun w => w.log)
      = some [Event.millis 0, Event.pinResetFast 5,
          Event.transfer [some 0x05, some 0] (some [0, 0]), Event.pinSetFast 5] := by
  rfl

/-! ## Receive lengths of readData (C9) -/

/-- C9 on the code: reading 300 bytes at address 100 with 256-byte pages, the two read
transactions clock in 300 and 144 bytes (the length still remaining, `bufLen`), 444 in
all, while the chunk counts of the loop are 156 and 144. -/
theorem readData_receive_lengths :
    (readData (flashSim exampleFlash tickClock) exampleFlash 100 0 300 simWorld).map
        (fun w => rxLengths w.log) = some [300, 144]
    ∧ (pageChunks exampleFlash.pageSize 300 100 300).map Prod.snd = [156, 144] := by
  constructor
  · set_option maxRecDepth 100000 in rfl
  · decide

/-! ## Round trip against the simulated chip (C3) -/

/-- C3, amended: against the simulated chip (page-program stores the payload at the
addressed location, wrapping inside the addressed page; read streams consecutive bytes
from the addressed location), for every page size > 0, every address `addr` and every
length such that `[addr, addr + length)` lies within the address range of the addressing
mode (2^24 in 3-byte mode, 2^32 in 4-byte mode), `writeData` followed by `readData` of the
same range returns, leaves the destination equal to the source byte for byte, and changes
no byte of RAM outside the destination. -/
theorem writeData_readData_roundTrip (self : SpiFlash) (clock : Nat → Nat) (pollFuel : Nat)
    (addr src dst length : Nat) (w : World FlashChip)
    (hps : 0 < self.pageSize) (hW : self.pageSize < wordSize) (hlen : length < wordSize)
    (hrange : addr + length ≤ addrSpace self) :
    ∃ w1 w2, writeData (flashSim self clock) self (pollFuel + 1) addr src length w = some w1
      ∧ readData (flashSim self clock) self addr dst length w1 = some w2
      ∧ (∀ i, i < length → w2.ram (dst + i) = w.ram (src + i))
      ∧ (∀ x, x < dst ∨ dst + length ≤ x → w2.ram x = w.ram x) := by
  obtain ⟨w0, hw0, hw0mem, hw0ram⟩ := sim_poll self clock pollFuel defaultTimeout w
  obtain ⟨w1, hw1, hw1ram, hw1mem⟩ :=
    sim_writeLoop self clock pollFuel hps hW length addr src length w0 (le_refl _) hlen hrange
  obtain ⟨w2, hw2, -, hw2ram⟩ :=
    sim_readLoop self clock hps hW length addr dst length w1 (le_refl _) hlen hrange
  refine ⟨w1, w2, ?_, hw2, ?_, ?_⟩
  · unfold writeData; rw [hw0]; exact hw1
  · intro i hi
    rw [hw2ram, if_pos (by omega), hw1mem, if_pos (by omega), hw0ram]
    congr 1; omega
  · intro x hx
    rw [hw2ram, if_neg (by omega), hw1ram, hw0ram]

/-- C3, amended, at a concrete input: 300 bytes at the unaligned address 100, spanning
two 256-byte pages. -/
theorem writeData_readData_roundTrip_example :
    ∃ w1 w2, writeData (flashSim exampleFlash tickClock) exampleFlash 1 100 0 300 simWorld = some w1
      ∧ readData (flashSim exampleFlash tickClock) exampleFlash 100 1000 300 w1 = some w2
      ∧ (∀ i, i < 300 → w2.ram (1000 + i) = simWorld.ram (0 + i))
      ∧ (∀ x, x < 1000 ∨ 1000 + 300 ≤ x → w2.ram x = simWorld.ram x) :=
  writeData_readData_roundTrip exampleFlash tickClock 0 100 0 1000 300 simWorld
    (by decide) (by decide) (by decide) (by decide)

/-- C3 as stated fails outside the address range of the addressing mode: in 3-byte mode
with a page size of 3, three bytes 0, 1, 2 written at address 2^24 + 2 read back as
0, 0xFF, 0xFF. -/
theorem roundTrip_beyond_address_range :
    ((writeData (flashSim oddPageFlash tickClock) oddPageFlash 1 16777218 0 3 simWorld).bind
        (readData (flashSim oddPageFlash tickClock) oddPageFlash 16777218 100 3)).map
        (fun w => [w.ram 100, w.ram 101, w.ram 102]) = some [0, 255, 255]
    ∧ [simWorld.ram 0, simWorld.ram 1, simWorld.ram 2] = [0, 1, 2] := by
  constructor
  · rfl
  · decide

end SpiFlashRK
